import Mathlib

/-!
Verification development for the elfkit static linker core.

The definitions below are a shallow embedding of the Rust sources
(src/src/elf.rs, src/src/loader.rs, src/src/section.rs, src/bin/ld.rs).
Machine integers (u64, u32, usize, i64) are modelled as Nat / Int; no claim
in this development depends on wrap-around behaviour, so modular reduction
is not inserted.  A Rust panic (index out of bounds, unwrap on None,
remainder by zero, explicit panic) is modelled by an Option / dedicated
result constructor returning no value.

Several leaf modules of the crate (types.rs, symbol.rs, strtab.rs,
error.rs, header.rs) are not among the provided sources; the corresponding
enumerations and records are modelled from the spec, as marked on each
declaration.
-/

set_option maxHeartbeats 1000000
set_option linter.unusedVariables false

namespace Elfkit

/-- Modelled from the spec: ELF identity classes (32/64-bit); src/types.rs
is not among the provided sources. -/
inductive Class
  | Class32
  | Class64
  deriving DecidableEq, Repr

/-- Modelled from the spec: section types dispatched on by the codec
(STRTAB, RELA, SYMTAB/DYNSYM, DYNAMIC, NOBITS, and the rest);
src/types.rs is not among the provided sources. -/
inductive SectionType
  | NULL
  | PROGBITS
  | SYMTAB
  | STRTAB
  | RELA
  | HASH
  | DYNAMIC
  | NOBITS
  | DYNSYM
  | other (v : Nat)
  deriving DecidableEq, Repr

/-- Modelled from the spec: the section flag bitset (ALLOC, WRITE,
EXECINSTR, TLS, INFO_LINK, ...); src/types.rs is not among the provided
sources.  Each flag the claims mention is one boolean field. -/
structure SectionFlags where
  write : Bool := false
  alloc : Bool := false
  execinstr : Bool := false
  tls : Bool := false
  info_link : Bool := false
  deriving DecidableEq, Repr

/-- Modelled from the spec: symbol binding; src/types.rs is not among the
provided sources. -/
inductive SymbolBind
  | LOCAL
  | GLOBAL
  | WEAK
  deriving DecidableEq, Repr

/-- Modelled from the spec: symbol type; src/types.rs is not among the
provided sources. -/
inductive SymbolType
  | NOTYPE
  | OBJECT
  | FUNC
  | SECTION
  | FILE
  | COMMON
  | TLS
  deriving DecidableEq, Repr

/-- Modelled from the spec: symbol visibility; src/types.rs is not among
the provided sources. -/
inductive SymbolVis
  | DEFAULT
  | INTERNAL
  | HIDDEN
  | PROTECTED
  deriving DecidableEq, Repr

/-- Modelled from the spec: `SymbolSectionIndex` is one of
`Undefined | Absolute | Common | Section(u16)`; src/symbol.rs is not among
the provided sources. -/
inductive SymbolSectionIndex
  | Undefined
  | Absolute
  | Common
  | Section (v : Nat)
  deriving DecidableEq, Repr

/-- Modelled from the spec: a symbol record
`(name, type, bind, vis, shndx, value, size)`; src/symbol.rs is not among
the provided sources.  Field `nameoff` stands for the private `_name`
offset field.  The all-zero default mirrors the derived Rust default used
as the reserved index-0 symbol. -/
structure Symbol where
  shndx : SymbolSectionIndex := SymbolSectionIndex.Undefined
  value : Nat := 0
  size : Nat := 0
  name : List Nat := []
  stype : SymbolType := SymbolType.NOTYPE
  bind : SymbolBind := SymbolBind.LOCAL
  vis : SymbolVis := SymbolVis.DEFAULT
  nameoff : Nat := 0
  deriving DecidableEq, Repr

/-- Modelled from the spec: x86-64 relocation kinds; only the kinds the
claims mention are distinguished, every other kind is carried by
`other`; src/relocation.rs is not among the provided sources. -/
inductive RelocationType
  | R_X86_64_64
  | R_X86_64_RELATIVE
  | R_X86_64_JUMP_SLOT
  | other (v : Nat)
  deriving DecidableEq, Repr

/-- Modelled from the spec: a relocation record `(addr, type, sym, addend)`;
src/relocation.rs is not among the provided sources. -/
structure Relocation where
  addr : Nat := 0
  sym : Nat := 0
  rtype : RelocationType := RelocationType.other 0
  addend : Int := 0
  deriving DecidableEq, Repr

/-- Modelled from the spec: dynamic entry tags used by the output
assembler; src/types.rs is not among the provided sources. -/
inductive DynamicType
  | NULL
  | HASH
  | STRTAB
  | SYMTAB
  | RELA
  | RELASZ
  | RELAENT
  | STRSZ
  | SYMENT
  | RELACOUNT
  | TEXTREL
  | FLAGS_1
  | other (v : Nat)
  deriving DecidableEq, Repr

/-- Modelled from the spec: dynamic entry content `(Address|Flags1|...)`;
the only Flags1 value the program emits is PIE, carried as a boolean;
src/dynamic.rs is not among the provided sources. -/
inductive DynamicContent
  | Address (v : Nat)
  | Flags1PIE
  deriving DecidableEq, Repr

/-- Modelled from the spec: a dynamic entry `(tag, content)`;
src/dynamic.rs is not among the provided sources. -/
structure Dynamic where
  dhtype : DynamicType
  content : DynamicContent
  deriving DecidableEq, Repr

/-- Modelled from the spec: the ELF header; only the fields the claims
touch are carried (identity class for entry sizes, the entry point);
src/header.rs is not among the provided sources. -/
structure Header where
  ident_class : Class := Class.Class64
  entry : Nat := 0
  deriving DecidableEq, Repr

/-- The section header record of src/src/section.rs (SectionHeader). -/
structure SectionHeader where
  name : Nat := 0
  shtype : SectionType := SectionType.NULL
  flags : SectionFlags := {}
  addr : Nat := 0
  offset : Nat := 0
  size : Nat := 0
  link : Nat := 0
  info : Nat := 0
  addralign : Nat := 0
  entsize : Nat := 0
  deriving DecidableEq, Repr

/-- The tagged section content of src/src/section.rs (SectionContent).
The string table (src/strtab.rs, not among the provided sources) is
modelled from the spec as its byte image, which is all the claims need. -/
inductive SectionContent
  | none
  | unloaded
  | raw (bytes : List Nat)
  | relocations (rs : List Relocation)
  | symbols (ss : List Symbol)
  | dynamic (ds : List Dynamic)
  | strtab (bytes : List Nat)
  deriving DecidableEq, Repr

instance : Inhabited SectionContent := ⟨SectionContent.none⟩

/-- The section record of src/src/section.rs (Section); its Rust default
has an all-zero header, empty name and None content. -/
structure Section where
  header : SectionHeader := {}
  name : List Nat := []
  content : SectionContent := SectionContent.none
  deriving DecidableEq, Repr

instance : Inhabited Section := ⟨{}⟩

/-- The ELF container of src/src/elf.rs (segments are not needed by any
claim and are omitted). -/
structure Elf where
  header : Header := {}
  sections : List Section := []
  deriving DecidableEq, Repr

/-- Modelled from the spec: per-record entry size for symbols, depending
only on the class (src/symbol.rs is not among the provided sources); the
concrete values are the x86-64 psABI ones and no claim depends on them. -/
def Symbol.entsize (eh : Header) : Nat :=
  match eh.ident_class with
  | Class.Class64 => 24
  | Class.Class32 => 16

/-- Modelled from the spec: per-record entry size for RELA relocations
(src/relocation.rs is not among the provided sources). -/
def Relocation.entsize (eh : Header) : Nat :=
  match eh.ident_class with
  | Class.Class64 => 24
  | Class.Class32 => 12

/-- Modelled from the spec: per-record entry size for dynamic entries
(src/dynamic.rs is not among the provided sources). -/
def Dynamic.entsize (eh : Header) : Nat :=
  match eh.ident_class with
  | Class.Class64 => 16
  | Class.Class32 => 8

/-- SectionContent::as_symbols of src/src/section.rs. -/
def SectionContent.asSymbols : SectionContent → Option (List Symbol)
  | SectionContent.symbols ss => Option.some ss
  | _ => Option.none

/-- SectionContent::as_relocations of src/src/section.rs. -/
def SectionContent.asRelocations : SectionContent → Option (List Relocation)
  | SectionContent.relocations rs => Option.some rs
  | _ => Option.none

/-- SectionContent::as_raw_mut of src/src/section.rs, as a read of the raw
bytes. -/
def SectionContent.asRaw : SectionContent → Option (List Nat)
  | SectionContent.raw bs => Option.some bs
  | _ => Option.none

/-- SectionContent::size of src/src/section.rs; sizing an Unloaded section
panics in Rust, modelled as Option.none. -/
def SectionContent.sizeOf (eh : Header) : SectionContent → Option Nat
  | SectionContent.unloaded => Option.none
  | SectionContent.none => Option.some 0
  | SectionContent.raw v => Option.some v.length
  | SectionContent.relocations v => Option.some (v.length * Relocation.entsize eh)
  | SectionContent.symbols v => Option.some (v.length * Symbol.entsize eh)
  | SectionContent.dynamic v => Option.some (v.length * Dynamic.entsize eh)
  | SectionContent.strtab v => Option.some v.length

/-- The Bloom filter of src/src/loader.rs: a plain bit array. -/
structure BloomFilter where
  bits : List Bool
  deriving DecidableEq, Repr

/-- BloomFilter::insert of src/src/loader.rs (lines 273-277): sets the two
bits indexed by the two hashes modulo the bit length.  With an empty bit
array the Rust remainder by zero panics, modelled as Option.none. -/
def BloomFilter.insertHash (b : BloomFilter) (nh : Nat × Nat) : Option BloomFilter :=
  if b.bits.length = 0 then Option.none
  else
    Option.some
      { bits := (b.bits.set (nh.1 % b.bits.length) true).set (nh.2 % b.bits.length) true }

/-- BloomFilter::contains of src/src/loader.rs (lines 279-282): reads the
two bits indexed by the two hashes modulo the bit length.  With an empty
bit array the Rust remainder by zero panics, modelled as Option.none. -/
def BloomFilter.containsHash (b : BloomFilter) (nh : Nat × Nat) : Option Bool :=
  if b.bits.length = 0 then Option.none
  else
    Option.some ((b.bits.getD (nh.1 % b.bits.length) false)
      && (b.bits.getD (nh.2 % b.bits.length) false))

/-- The Occupied branch of SimpleCollector::merge in src/bin/ld.rs
(lines 196-219): merging an input section into an already existing output
bucket.  Raw source content is appended after padding the destination to
the maximum of the two alignments; the Rust expression
cc.len() % align panics when the maximum alignment is zero, modelled as
Option.none.  None source content grows the bucket size.  Any other
source content hits unreachable and panics.  The returned number is the
offset handed back to the caller. -/
def mergeOccupied (dst src : Section) : Option (Section × Nat) :=
  match src.content with
  | SectionContent.raw r =>
    match dst.content.asRaw with
    | Option.none => Option.none
    | Option.some cc =>
      let align := max dst.header.addralign src.header.addralign
      if align = 0 then Option.none
      else
        let cc2 := if cc.length % align ≠ 0
          then cc ++ List.replicate (align - cc.length % align) 0
          else cc
        let ov := cc2.length
        Option.some
          ({ dst with
              header := { dst.header with addralign := align },
              content := SectionContent.raw (cc2 ++ r) }, ov)
  | SectionContent.none =>
    let ov := dst.header.size
    Option.some
      ({ dst with header := { dst.header with size := dst.header.size + src.header.size } }, ov)
  | _ => Option.none

/-- The per-section link/info adjustment Elf::remove_section performs on
every remaining section (src/src/elf.rs lines 346-363): a link equal to
the removed index dangles to 0, a larger link is decremented; the same
for info when the INFO_LINK flag is set. -/
def adjOnRemove (at_ : Nat) (s : Section) : Section :=
  let l := if s.header.link = at_ then 0
    else if at_ < s.header.link then s.header.link - 1
    else s.header.link
  let i := if s.header.flags.info_link then
      (if s.header.info = at_ then 0
       else if at_ < s.header.info then s.header.info - 1
       else s.header.info)
    else s.header.info
  { s with header := { s.header with link := l, info := i } }

/-- Elf::remove_section of src/src/elf.rs (lines 343-366); Vec::remove
panics when the index is out of bounds (Option.none). -/
def removeSection (at_ : Nat) (secs : List Section) : Option (Section × List Section) :=
  match secs.get? at_ with
  | Option.none => Option.none
  | Option.some r => Option.some (r, (secs.eraseIdx at_).map (adjOnRemove at_))

/-- The per-section link/info adjustment Elf::insert_section performs on
every section, the inserted one included (src/src/elf.rs lines 370-380);
note the asymmetry in the source: link is incremented when at_ ≤ link,
info only when at_ < info. -/
def adjOnInsert (at_ : Nat) (s : Section) : Section :=
  let l := if at_ ≤ s.header.link then s.header.link + 1 else s.header.link
  let i := if s.header.flags.info_link ∧ at_ < s.header.info
    then s.header.info + 1 else s.header.info
  { s with header := { s.header with link := l, info := i } }

/-- Elf::insert_section of src/src/elf.rs (lines 367-383); Vec::insert
panics when the index exceeds the length (Option.none). -/
def insertSection (at_ : Nat) (s : Section) (secs : List Section) : Option (List Section) :=
  if at_ ≤ secs.length
  then Option.some ((secs.insertIdx at_ s).map (adjOnInsert at_))
  else Option.none

/-- The sentinel-marking pass of Elf::move_section (src/src/elf.rs lines
394-403): links (and INFO_LINK infos) equal to the moved index become the
sentinel 999999. -/
def markSentinel (src : Nat) (s : Section) : Section :=
  let l := if s.header.link = src then 999999 else s.header.link
  let i := if s.header.flags.info_link ∧ s.header.info = src then 999999 else s.header.info
  { s with header := { s.header with link := l, info := i } }

/-- The sentinel-restoring pass of Elf::move_section (src/src/elf.rs lines
406-415): sentinel links (and INFO_LINK sentinel infos) become the
destination index. -/
def restoreSentinel (dst : Nat) (s : Section) : Section :=
  let l := if s.header.link = 999999 then dst else s.header.link
  let i := if s.header.flags.info_link ∧ s.header.info = 999999 then dst else s.header.info
  { s with header := { s.header with link := l, info := i } }

/-- Elf::move_section of src/src/elf.rs (lines 385-418): mark every
link/info equal to the source index with the sentinel, remove at the
source, insert at the destination (decremented by one when moving towards
the end), then restore the sentinel to the destination index; the panics
of remove/insert propagate as Option.none. -/
def moveSection (src dst0 : Nat) (secs : List Section) : Option (List Section) :=
  if dst0 = src then Option.some secs
  else
    (removeSection src (secs.map (markSentinel src))).bind (fun p =>
      (insertSection (if src < dst0 then dst0 - 1 else dst0) p.1 p.2).map
        (fun l2 => l2.map (restoreSentinel (if src < dst0 then dst0 - 1 else dst0))))

/-- Setting the WRITE flag on the relocation target section, as
DynamicRelocator::relocate does at src/bin/ld.rs line 317. -/
def setWriteFlag (s : Section) : Section :=
  { s with header := { s.header with flags := { s.header.flags with write := true } } }

/-- The per-relocation rewrite of DynamicRelocator::relocate
(src/bin/ld.rs lines 321-334): the symbol is indexed first (out of bounds
panics), then R_X86_64_64 becomes a dynamic relocation with sym 0, the
target section address added to addr and the symbol value added to the
addend; every other kind panics as unimplemented. -/
def relaTransform (secaddr : Nat) (symtab : List Symbol) (r : Relocation) : Option Relocation :=
  match symtab.get? r.sym with
  | Option.none => Option.none
  | Option.some sym =>
    match r.rtype with
    | RelocationType.R_X86_64_64 =>
      Option.some { r with sym := 0, addr := r.addr + secaddr,
                           addend := r.addend + (sym.value : Int) }
    | _ => Option.none

/-- The RELA branch of DynamicRelocator::relocate (src/bin/ld.rs lines
313-335) on the section at index i: the section is replaced by the
default section, the target section (header.info) gets the WRITE flag,
its address and the linked symbol table (header.link) are read from the
updated list, and every relocation is rewritten.  The address is read
after the flag insertion, which does not change it.  Every Rust panic
(index out of bounds, non-Symbols link content, non-Relocations content,
unimplemented relocation kind) is Option.none. -/
def relaStep (secs : List Section) (i : Nat) : Option (List Section × List Relocation) :=
  (secs.get? i).bind (fun relasec =>
    ((secs.set i {}).get? relasec.header.info).bind (fun target =>
      ((((secs.set i {}).set relasec.header.info
          (setWriteFlag target))).get? relasec.header.link).bind (fun stsec =>
        (stsec.content.asSymbols).bind (fun symtab =>
          (relasec.content.asRelocations).bind (fun rs =>
            (rs.mapM (relaTransform target.header.addr symtab)).map
              (fun dynAdds =>
                ((secs.set i {}).set relasec.header.info (setWriteFlag target),
                 dynAdds)))))))

/-- The rounding applied to poff (and, by the same amount, voff) at the
head of the layout loop (src/bin/ld.rs lines 245-251): the distance from
poff up to the next multiple of a positive addralign. -/
def alignDelta (poff a : Nat) : Nat :=
  if 0 < a ∧ poff % a ≠ 0 then a - poff % a else 0

/-- The virtual-address push of the layout loop (src/bin/ld.rs lines
252-260): for a non-NOBITS section, voff is raised until voff - poff is a
multiple of the 0x200000 load alignment. -/
def pageFix (poff1 voff1 : Nat) (ty : SectionType) : Nat :=
  if ty ≠ SectionType.NOBITS ∧ (voff1 - poff1) % 0x200000 ≠ 0
  then voff1 + (0x200000 - (voff1 - poff1) % 0x200000)
  else voff1

/-- The layout loop of relayout (src/bin/ld.rs lines 244-266) over the
sections after the null section, carrying the running file offset poff
and virtual address voff: round poff up to addralign (voff moves by the
same delta), for non-NOBITS sections panic when poff > voff (modelled
Option.none) and push voff up until voff - poff is a multiple of
0x200000, assign offset and addr, advance poff by the content size
(sizing Unloaded panics) and voff by header.size. -/
def relayoutGo (eh : Header) (poff voff : Nat) : List Section → Option (List Section)
  | [] => Option.some []
  | sec :: rest =>
    if sec.header.shtype ≠ SectionType.NOBITS ∧
        voff + alignDelta poff sec.header.addralign
          < poff + alignDelta poff sec.header.addralign
    then Option.none
    else
      (sec.content.sizeOf eh).bind (fun csz =>
        (relayoutGo eh (poff + alignDelta poff sec.header.addralign + csz)
            (pageFix (poff + alignDelta poff sec.header.addralign)
                (voff + alignDelta poff sec.header.addralign) sec.header.shtype
              + sec.header.size) rest).map
          (fun rest2 =>
            { sec with header := { sec.header with
                offset := poff + alignDelta poff sec.header.addralign,
                addr := pageFix (poff + alignDelta poff sec.header.addralign)
                  (voff + alignDelta poff sec.header.addralign)
                  sec.header.shtype } } :: rest2))

/-- relayout of src/bin/ld.rs (lines 239-269) on an already synced section
list (the sync_all call at line 240 is carried as a hypothesis by the
theorems below); both bases start at 0x300, and slicing sections[1..] of
an empty vector panics. -/
def relayoutSections (eh : Header) : List Section → Option (List Section)
  | [] => Option.none
  | s0 :: rest => (relayoutGo eh 0x300 0x300 rest).map (fun r => s0 :: r)

/-- The per-symbol test of the SYMTAB/DYNSYM scan in State::contains
(src/src/loader.rs lines 76-91): GLOBAL or WEAK bind, shndx neither
Undefined nor Absolute, and name equal to the needle. -/
def symMatchesNeedle (needle : List Nat) (sym : Symbol) : Bool :=
  (match sym.bind with
   | SymbolBind.GLOBAL => true
   | SymbolBind.WEAK => true
   | SymbolBind.LOCAL => false)
  && (match sym.shndx with
      | SymbolSectionIndex.Undefined => false
      | SymbolSectionIndex.Absolute => false
      | _ => true)
  && (sym.name == needle)

/-- The section scan of the Elf arm of State::contains (src/src/loader.rs
lines 72-95), visiting sections in order; a SYMTAB or DYNSYM section
whose content is not Symbols makes the unwrap panic (Option.none). -/
def scanSectionsForNeedle (needle : List Nat) : List Section → Option Bool
  | [] => Option.some false
  | sec :: rest =>
    if sec.header.shtype = SectionType.SYMTAB ∨ sec.header.shtype = SectionType.DYNSYM then
      match sec.content.asSymbols with
      | Option.none => Option.none
      | Option.some ss =>
        if ss.any (symMatchesNeedle needle) then Option.some true
        else scanSectionsForNeedle needle rest
    else scanSectionsForNeedle needle rest

/-- The Elf arm of State::contains (src/src/loader.rs lines 70-98): false
when the Bloom filter says no, otherwise the result of the scan. -/
def elfContains (e : Elf) (bloom : BloomFilter) (needle : List Nat) (nh : Nat × Nat) :
    Option Bool :=
  match bloom.containsHash nh with
  | Option.none => Option.none
  | Option.some false => Option.some false
  | Option.some true => scanSectionsForNeedle needle e.sections

/-- The byte string ".hash". -/
def nmHash : List Nat := [0x2e, 0x68, 0x61, 0x73, 0x68]

/-- The byte string ".dynstr". -/
def nmDynstr : List Nat := [0x2e, 0x64, 0x79, 0x6e, 0x73, 0x74, 0x72]

/-- The byte string ".dynsym". -/
def nmDynsym : List Nat := [0x2e, 0x64, 0x79, 0x6e, 0x73, 0x79, 0x6d]

/-- The byte string ".rela.dyn". -/
def nmRelaDyn : List Nat := [0x2e, 0x72, 0x65, 0x6c, 0x61, 0x2e, 0x64, 0x79, 0x6e]

/-- The end of the leading R_X86_64_RELATIVE / R_X86_64_JUMP_SLOT run of a
relocation table: DynamicRelocator::dynamic computes it as the position
of the first entry of any other kind, defaulting to the table length
(src/bin/ld.rs lines 440-448). -/
def firstNonRela (rs : List Relocation) : Nat :=
  rs.findIdx (fun r =>
    !(r.rtype == RelocationType.R_X86_64_RELATIVE)
    && !(r.rtype == RelocationType.R_X86_64_JUMP_SLOT))

/-- The dynamic entries DynamicRelocator::dynamic pushes for one section
(src/bin/ld.rs lines 397-467), dispatched on the section name; a
.rela.dyn section whose content is not Relocations yields
Err(UnexpectedSectionContent), modelled Option.none. -/
def dynEntriesFor (sec : Section) : Option (List Dynamic) :=
  if sec.name = nmHash then
    Option.some [⟨DynamicType.HASH, DynamicContent.Address sec.header.addr⟩]
  else if sec.name = nmDynstr then
    Option.some [⟨DynamicType.STRTAB, DynamicContent.Address sec.header.addr⟩,
                 ⟨DynamicType.STRSZ, DynamicContent.Address sec.header.size⟩]
  else if sec.name = nmDynsym then
    Option.some [⟨DynamicType.SYMTAB, DynamicContent.Address sec.header.addr⟩,
                 ⟨DynamicType.SYMENT, DynamicContent.Address sec.header.entsize⟩]
  else if sec.name = nmRelaDyn then
    (sec.content.asRelocations).map (fun v =>
      [⟨DynamicType.RELA, DynamicContent.Address sec.header.addr⟩,
       ⟨DynamicType.RELASZ, DynamicContent.Address sec.header.size⟩,
       ⟨DynamicType.RELAENT, DynamicContent.Address sec.header.entsize⟩]
        ++ ((if 0 < firstNonRela v
              then [⟨DynamicType.RELACOUNT, DynamicContent.Address (firstNonRela v)⟩]
              else [])
          ++ (if firstNonRela v < v.length
              then [⟨DynamicType.TEXTREL, DynamicContent.Address (firstNonRela v)⟩]
              else [])))
  else Option.some []

/-- DynamicRelocator::dynamic of src/bin/ld.rs (lines 389-474): FLAGS_1 =
PIE first, then the per-section entries in section order, DT_NULL last. -/
def dynamicList (secs : List Section) : Option (List Dynamic) :=
  (secs.mapM dynEntriesFor).map
    (fun ps => ⟨DynamicType.FLAGS_1, DynamicContent.Flags1PIE⟩ ::
      (ps.flatten ++ [⟨DynamicType.NULL, DynamicContent.Address 0⟩]))

/-- The fresh SECTION-type LOCAL symbol Elf::_make_symtab_gnuld_compat
inserts for section i (src/src/elf.rs lines 281-290). -/
def sectionSymbol (i : Nat) : Symbol :=
  { shndx := SymbolSectionIndex.Section i, value := 0, size := 0, name := [],
    stype := SymbolType.SECTION, bind := SymbolBind.LOCAL, vis := SymbolVis.DEFAULT,
    nameoff := 0 }

/-- The FILE-type LOCAL symbol Elf::_make_symtab_gnuld_compat appends
(src/src/elf.rs lines 295-304). -/
def fileSymbol : Symbol :=
  { shndx := SymbolSectionIndex.Absolute, value := 0, size := 0, name := [],
    stype := SymbolType.FILE, bind := SymbolBind.LOCAL, vis := SymbolVis.DEFAULT,
    nameoff := 0 }

/-- The insertion loop of src/src/elf.rs lines 280-293: for each section
index i in turn, insert the fresh section symbol, keyed by the running
synthetic old-index counter, at position i. -/
def insertSecSymsFold (start : List (Nat × Symbol)) (base : Nat) (idxs : List Nat) :
    List (Nat × Symbol) × Nat :=
  idxs.foldl (fun acc i => (acc.1.insertIdx i (acc.2, sectionSymbol i), acc.2 + 1)) (start, base)

/-- The symbol-table construction of Elf::_make_symtab_gnuld_compat
(src/src/elf.rs lines 245-309 and 335): SECTION-type symbols are set
aside, the rest keeps its old indices and is partitioned into GLOBAL and
the others, GLOBAL is sorted by value (sort_unstable_by realized as merge
sort; the claims only use sortedness), the zero symbol is prepended with
the next synthetic key, one fresh SECTION symbol per section is inserted
at positions 1..nsec-1, a FILE symbol is appended, and the final table is
the non-GLOBAL part followed by the GLOBAL part; the OrderMap keys are
pairwise distinct (old indices below syms.length, synthetic keys from
syms.length up), so from_iter keeps exactly this order and the keys are
dropped at line 336.  The relocation rewrite of lines 311-333 reads this
table but does not change it. -/
def gnuldSymtab (syms : List Symbol) (nsec : Nat) : List Symbol :=
  let remap := syms.enum.filter (fun p => !(p.2.stype == SymbolType.SECTION))
  let gs := remap.filter (fun p => p.2.bind == SymbolBind.GLOBAL)
  let ls := remap.filter (fun p => !(p.2.bind == SymbolBind.GLOBAL))
  let gsSorted := gs.mergeSort (fun a b => a.2.value ≤ b.2.value)
  let base := syms.length
  let ls1 := (base, ({} : Symbol)) :: ls
  let step := insertSecSymsFold ls1 (base + 1) (List.range' 1 (nsec - 1))
  let ls3 := step.1 ++ [(step.2, fileSymbol)]
  (ls3 ++ gsSorted).map Prod.snd

/-- Modelled from the spec: the error taxonomy (src/error.rs is not among
the provided sources); only the kinds the loader claims need are
distinguished, the rest is carried by a code. -/
inductive LoadError
  | InvalidMagic
  | NoSymbolsInObject
  | ioFailure (code : Nat)
  | otherFailure (code : Nat)
  deriving DecidableEq, Repr

/-- The data of an opened archive, standing in for the external ar crate
state owned by the Archive variant (the I/O boundary of the shallow
embedding): the symbol index when it can be read, and the member entries
as a name suffix plus the outcome of opening and parsing the member. -/
structure ArchiveData where
  symIndex : Option (List (List Nat))
  members : List (List Nat × Except LoadError Elf)

/-- What the filesystem yields for a path, standing in for File::open plus
filetype sniffing plus parsing (src/src/loader.rs lines 106-142 delegate
these to external crates): an open or parse error, an unknown magic, a
parsed relocatable ELF, or an opened archive. -/
inductive FileKind
  | unknownFile
  | elfFile (e : Elf)
  | archiveFile (a : ArchiveData)

/-- The loader state machine of src/src/loader.rs (lines 19-41). -/
inductive LState
  | errorSt (name : List Nat) (err : LoadError)
  | pathSt (name : List Nat)
  | archiveSt (name : List Nat) (a : ArchiveData)
  | elfSt (name : List Nat) (e : Elf) (bloom : BloomFilter)
  | objectSt (name : List Nat) (e : Elf)

/-- State::contains of src/src/loader.rs (lines 54-101): Error and Path
answer true, Archive consults its symbol index (true when it cannot be
read), Elf asks the Bloom filter and scans, Object answers false.  Panics
inside the Elf arm are Option.none. -/
def LState.containsNeedle : LState → List Nat → Nat × Nat → Option Bool
  | LState.errorSt _ _, _, _ => Option.some true
  | LState.pathSt _, _, _ => Option.some true
  | LState.archiveSt _ a, needle, _ =>
    match a.symIndex with
    | Option.none => Option.some true
    | Option.some syms => Option.some (syms.any (fun s => s == needle))
  | LState.elfSt _ e bloom, needle, nh => elfContains e bloom needle nh
  | LState.objectSt _ _, _, _ => Option.some false

/-- The per-symbol admissibility test of the Bloom-filter build in
State::make_object (src/src/loader.rs lines 207-218): GLOBAL or WEAK and
shndx neither Undefined nor Absolute. -/
def symAdmissible (sym : Symbol) : Bool :=
  (match sym.bind with
   | SymbolBind.GLOBAL => true
   | SymbolBind.WEAK => true
   | SymbolBind.LOCAL => false)
  && (match sym.shndx with
      | SymbolSectionIndex.Undefined => false
      | SymbolSectionIndex.Absolute => false
      | _ => true)

/-- State::make_object of src/src/loader.rs (lines 179-232), over an
already parsed Elf (from_reader and the per-section loads are the I/O
environment of the shallow embedding).  The total symbol count over all
SYMTAB/DYNSYM sections is taken (unwrapping non-Symbols content panics:
Option.none); a zero count gives NoSymbolsInObject; the Bloom filter is
sized by the f32 formula needed_bits, abstracted as the parameter nb, and
filled with the hash (parameter hashFn, the external keyed FNV pair) of
every GLOBAL/WEAK defined symbol; inserting into an empty bit array
panics. -/
def makeObject (nb : Nat → Nat) (hashFn : List Nat → Nat × Nat) (name : List Nat) (e : Elf) :
    Option (Except LoadError LState) :=
  (((e.sections.filter (fun s =>
      s.header.shtype == SectionType.SYMTAB
        || s.header.shtype == SectionType.DYNSYM)).mapM
    (fun s => s.content.asSymbols) : Option (List (List Symbol)))).bind (fun symLists =>
      if (symLists.map List.length).sum = 0
      then Option.some (Except.error LoadError.NoSymbolsInObject)
      else
        ((symLists.flatten.filter symAdmissible).foldlM
            (fun (b : BloomFilter) sym => b.insertHash (hashFn sym.name))
            (⟨List.replicate (nb ((symLists.map List.length).sum)) false⟩ : BloomFilter)).map
          (fun bloom => Except.ok (LState.elfSt name e bloom)))

/-- State::load of src/src/loader.rs (lines 103-177), over the filesystem
environment fs: Error states call the caller's handler; Path opens and
sniffs; Archive yields one Elf or Error state per member (the member name
suffix appended to the archive name); Elf loads all sections — a no-op in
the model, where contents are already materialized — and becomes Object;
Object is returned unchanged.  Panics are Option.none. -/
def loadState (fs : List Nat → Except LoadError FileKind) (nb : Nat → Nat)
    (hashFn : List Nat → Nat × Nat) (onErr : LoadError → List Nat → List LState) :
    LState → Option (List LState)
  | LState.errorSt name err => Option.some (onErr err name)
  | LState.pathSt name =>
    match fs name with
    | Except.error err => Option.some [LState.errorSt name err]
    | Except.ok FileKind.unknownFile => Option.some [LState.errorSt name LoadError.InvalidMagic]
    | Except.ok (FileKind.elfFile el) =>
      match makeObject nb hashFn name el with
      | Option.none => Option.none
      | Option.some (Except.error err) => Option.some [LState.errorSt name err]
      | Option.some (Except.ok st) => Option.some [st]
    | Except.ok (FileKind.archiveFile a) => Option.some [LState.archiveSt name a]
  | LState.archiveSt name a =>
    a.members.mapM (fun m =>
      match m.2 with
      | Except.error err => Option.some (LState.errorSt (name ++ m.1) err)
      | Except.ok el =>
        match makeObject nb hashFn (name ++ m.1) el with
        | Option.none => Option.none
        | Option.some (Except.error err) => Option.some (LState.errorSt (name ++ m.1) err)
        | Option.some (Except.ok st) => Option.some st)
  | LState.elfSt name el _ => Option.some [LState.objectSt name el]
  | LState.objectSt name el => Option.some [LState.objectSt name el]

/-- The needle loop of State::load_if (src/src/loader.rs line 47):
needles.iter().map(contains).any evaluated lazily left to right, a panic
in an earlier contains propagating. -/
def anyContains (s : LState) (hashFn : List Nat → Nat × Nat) : List (List Nat) → Option Bool
  | [] => Option.some false
  | nd :: rest =>
    match s.containsNeedle nd (hashFn nd) with
    | Option.none => Option.none
    | Option.some true => Option.some true
    | Option.some false => anyContains s hashFn rest

/-- Result of running load_if with bounded recursion depth: the Rust
recursion carries no fuel, so fuelOut marks exactly the runs whose call
tree is deeper than the supplied fuel, and panicked marks a Rust panic. -/
inductive RunRes
  | out (states : List LState)
  | panicked
  | fuelOut

/-- Sequential collection of the recursive flat_map of State::load_if
(src/src/loader.rs line 48): the first panic or fuel exhaustion wins,
otherwise the successor lists are concatenated. -/
def seqJoin : List RunRes → RunRes
  | [] => RunRes.out []
  | RunRes.out l :: rest =>
    match seqJoin rest with
    | RunRes.out l2 => RunRes.out (l ++ l2)
    | x => x
  | RunRes.panicked :: _ => RunRes.panicked
  | RunRes.fuelOut :: _ => RunRes.fuelOut

/-- State::load_if of src/src/loader.rs (lines 44-52), with explicit fuel:
when some needle may be contained, load and recurse over the successors
with the same needles, otherwise keep the state unchanged. -/
def loadIfF (fs : List Nat → Except LoadError FileKind) (nb : Nat → Nat)
    (hashFn : List Nat → Nat × Nat) (onErr : LoadError → List Nat → List LState)
    (needles : List (List Nat)) : Nat → LState → RunRes
  | 0, _ => RunRes.fuelOut
  | Nat.succ n, s =>
    match anyContains s hashFn needles with
    | Option.none => RunRes.panicked
    | Option.some false => RunRes.out [s]
    | Option.some true =>
      match loadState fs nb hashFn onErr s with
      | Option.none => RunRes.panicked
      | Option.some succs => seqJoin (succs.map (loadIfF fs nb hashFn onErr needles n))

/-- The error handler used by bin/findsym.rs: a failed input contributes
no successor states. -/
def emptyHandler : LoadError → List Nat → List LState := fun _ _ => []

/-- An error handler that turns every error back into an Error state (a
legal value for the on_error callback parameter of load_if). -/
def regenHandler : LoadError → List Nat → List LState :=
  fun err name => [LState.errorSt name err]

/-- What DynamicRelocator::relocate guarantees for a successfully
processed RELA section at index i: the section content was a relocation
list, every relocation had type R_X86_64_64, the updated section list is
the input with the RELA slot cleared and the WRITE flag set on the target
section named by header.info, and every relocation was rewritten (sym to
0, the target address added to addr, the linked symbol value added to the
addend) and appended in order to the returned dynamic relocation list. -/
def relaStepOkSpec (secs : List Section) (i : Nat) (out : List Section × List Relocation) :
    Prop :=
  ∃ relasec rs target symtab stsec,
    secs.get? i = Option.some relasec ∧
    relasec.content = SectionContent.relocations rs ∧
    (secs.set i {}).get? relasec.header.info = Option.some target ∧
    out.1 = (secs.set i {}).set relasec.header.info (setWriteFlag target) ∧
    out.1.get? relasec.header.info = Option.some (setWriteFlag target) ∧
    (setWriteFlag target).header.flags.write = true ∧
    out.1.get? relasec.header.link = Option.some stsec ∧
    stsec.content.asSymbols = Option.some symtab ∧
    (∀ r ∈ rs, r.rtype = RelocationType.R_X86_64_64) ∧
    out.2.length = rs.length ∧
    (∀ k (hk : k < rs.length) (hk2 : k < out.2.length),
      ∃ sym, symtab.get? (rs.get ⟨k, hk⟩).sym = Option.some sym ∧
        out.2.get ⟨k, hk2⟩ =
          { addr := (rs.get ⟨k, hk⟩).addr + target.header.addr, sym := 0,
            rtype := RelocationType.R_X86_64_64,
            addend := (rs.get ⟨k, hk⟩).addend + (sym.value : Int) })

/-- A SYMTAB or DYNSYM section of the ELF holds a GLOBAL or WEAK symbol
whose section index is neither Undefined nor Absolute and whose name is
the needle (the defined-symbol scan State::contains performs). -/
def elfScanSpec (e : Elf) (needle : List Nat) : Prop :=
  ∃ sec ∈ e.sections,
    (sec.header.shtype = SectionType.SYMTAB ∨ sec.header.shtype = SectionType.DYNSYM) ∧
    ∃ ss, sec.content = SectionContent.symbols ss ∧
      ∃ sym ∈ ss,
        (sym.bind = SymbolBind.GLOBAL ∨ sym.bind = SymbolBind.WEAK) ∧
        sym.shndx ≠ SymbolSectionIndex.Undefined ∧
        sym.shndx ≠ SymbolSectionIndex.Absolute ∧
        sym.name = needle

/-- What State::contains computes for an Elf state: the Bloom filter says
present and the defined-symbol scan succeeds. -/
def elfContainsSpec (e : Elf) (bloom : BloomFilter) (needle : List Nat) (nh : Nat × Nat) :
    Prop :=
  bloom.containsHash nh = Option.some true ∧ elfScanSpec e needle

/-- What remove_section(at) does to the surviving sections: the section
at position k of the output is the input section at k (below at) or k+1
(at or above), with link set to 0 when it equalled at and decremented
when it was larger, and the same for info exactly when INFO_LINK is
set; everything else is unchanged. -/
def removeSectionSpec (at_ : Nat) (secs : List Section) : Prop :=
  ∀ r out, removeSection at_ secs = Option.some (r, out) →
    out.length = secs.length - 1 ∧
    ∀ k (hk : k < out.length),
      ∃ (hs : (if k < at_ then k else k + 1) < secs.length),
        out.get ⟨k, hk⟩ =
          (let src := secs.get ⟨(if k < at_ then k else k + 1), hs⟩
           { src with header := { src.header with
              link := if src.header.link = at_ then 0
                else if at_ < src.header.link then src.header.link - 1
                else src.header.link,
              info := if src.header.flags.info_link then
                  (if src.header.info = at_ then 0
                   else if at_ < src.header.info then src.header.info - 1
                   else src.header.info)
                else src.header.info } })

/-- What insert_section(at, s) does: position k of the output is the input
section at k (below at), the inserted section (at at), or the input
section at k-1 (above at), with link incremented when at ≤ link, and info
incremented exactly when INFO_LINK is set and at < info (info equal to at
is left unchanged); everything else is unchanged. -/
def insertSectionSpec (at_ : Nat) (s : Section) (secs : List Section) : Prop :=
  ∀ out, insertSection at_ s secs = Option.some out →
    out.length = secs.length + 1 ∧
    ∀ k (hk : k < out.length),
      (∀ (hlt : k < at_) (hs : k < secs.length),
        out.get ⟨k, hk⟩ = adjOnInsert at_ (secs.get ⟨k, hs⟩)) ∧
      (k = at_ → out.get ⟨k, hk⟩ = adjOnInsert at_ s) ∧
      (∀ (hgt : at_ < k) (hs : k - 1 < secs.length),
        out.get ⟨k, hk⟩ = adjOnInsert at_ (secs.get ⟨k - 1, hs⟩))

/-- The section list is synced in the sense the layout pass relies on:
every non-NOBITS section's header size equals its content size, and
NOBITS sections carry no content bytes. -/
def syncedSections (eh : Header) (secs : List Section) : Prop :=
  ∀ sec ∈ secs,
    (sec.header.shtype ≠ SectionType.NOBITS →
      sec.content.sizeOf eh = Option.some sec.header.size) ∧
    (sec.header.shtype = SectionType.NOBITS → sec.content = SectionContent.none)

/-- The per-section facts relayout establishes: the file offset is a
multiple of a positive addralign, a non-NOBITS section has its address
congruent to its offset modulo the 0x200000 load alignment and its offset
never exceeds its address, and both start at or after the 0x300 base. -/
def layoutInvariant (sec : Section) : Prop :=
  (0 < sec.header.addralign → sec.header.offset % sec.header.addralign = 0) ∧
  (sec.header.shtype ≠ SectionType.NOBITS →
    (sec.header.addr - sec.header.offset) % 0x200000 = 0 ∧
    sec.header.offset ≤ sec.header.addr) ∧
  0x300 ≤ sec.header.offset ∧ 0x300 ≤ sec.header.addr

/-- The FLAGS_1 = PIE entry opening every dynamic table. -/
def pieEntry : Dynamic := ⟨DynamicType.FLAGS_1, DynamicContent.Flags1PIE⟩

/-- The terminating DT_NULL entry of every dynamic table. -/
def nullEntry : Dynamic := ⟨DynamicType.NULL, DynamicContent.Address 0⟩

/-- What DynamicRelocator::dynamic guarantees for its output list: PIE
first, NULL last, one tag group per present special section name, a
RELACOUNT exactly for a non-empty leading RELATIVE/JUMP_SLOT run of a
.rela.dyn table, and a TEXTREL exactly when that run does not cover the
whole table. -/
def dynamicSpec (secs : List Section) (d : List Dynamic) : Prop :=
  d.head? = Option.some pieEntry ∧
  d.getLast? = Option.some nullEntry ∧
  ((∃ e ∈ d, e.dhtype = DynamicType.HASH) ↔ (∃ s ∈ secs, s.name = nmHash)) ∧
  ((∃ e ∈ d, e.dhtype = DynamicType.STRTAB) ↔ (∃ s ∈ secs, s.name = nmDynstr)) ∧
  ((∃ e ∈ d, e.dhtype = DynamicType.STRSZ) ↔ (∃ s ∈ secs, s.name = nmDynstr)) ∧
  ((∃ e ∈ d, e.dhtype = DynamicType.SYMTAB) ↔ (∃ s ∈ secs, s.name = nmDynsym)) ∧
  ((∃ e ∈ d, e.dhtype = DynamicType.SYMENT) ↔ (∃ s ∈ secs, s.name = nmDynsym)) ∧
  ((∃ e ∈ d, e.dhtype = DynamicType.RELA) ↔ (∃ s ∈ secs, s.name = nmRelaDyn)) ∧
  ((∃ e ∈ d, e.dhtype = DynamicType.RELASZ) ↔ (∃ s ∈ secs, s.name = nmRelaDyn)) ∧
  ((∃ e ∈ d, e.dhtype = DynamicType.RELAENT) ↔ (∃ s ∈ secs, s.name = nmRelaDyn)) ∧
  (∀ n : Nat, (⟨DynamicType.RELACOUNT, DynamicContent.Address n⟩ : Dynamic) ∈ d ↔
    ∃ s ∈ secs, s.name = nmRelaDyn ∧ ∃ rs, s.content = SectionContent.relocations rs ∧
      firstNonRela rs = n ∧ 0 < n) ∧
  ((∃ e ∈ d, e.dhtype = DynamicType.TEXTREL) ↔
    ∃ s ∈ secs, s.name = nmRelaDyn ∧ ∃ rs, s.content = SectionContent.relocations rs ∧
      firstNonRela rs < rs.length)

/-- What the gnu-ld compatibility pass guarantees for the rebuilt symbol
table of a SYMTAB section: the all-zero symbol at index 0, a fresh LOCAL
SECTION symbol for section i at every index 1 ≤ i < nsec, a non-GLOBAL
part followed by a GLOBAL part, and the GLOBAL part ascending by value. -/
def gnuldSpec (syms : List Symbol) (nsec : Nat) : Prop :=
  (gnuldSymtab syms nsec).head? = Option.some ({} : Symbol) ∧
  (∀ i, 1 ≤ i → i < nsec → (gnuldSymtab syms nsec).get? i = Option.some (sectionSymbol i)) ∧
  ∃ front gl, gnuldSymtab syms nsec = front ++ gl ∧
    (∀ s ∈ front, s.bind ≠ SymbolBind.GLOBAL) ∧
    (∀ s ∈ gl, s.bind = SymbolBind.GLOBAL) ∧
    gl.Pairwise (fun a b => a.value ≤ b.value)

/- Concrete instances used by the counterexamples and witnesses below. -/

/-- A relocation of type R_X86_64_64 against symbol 0 with addend 5. -/
def cwRel1 : Relocation :=
  { addr := 8, sym := 0, rtype := RelocationType.R_X86_64_64, addend := 5 }

/-- A target section at virtual address 0x500. -/
def cwTarget : Section := { header := { addr := 0x500 } }

/-- A symbol table section holding one symbol of value 100. -/
def cwSymtabSec : Section := { content := SectionContent.symbols [{ value := 100 }] }

/-- The header of a RELA section targeting section 1 and linked to
section 2. -/
def cwRelaHdr : SectionHeader := { shtype := SectionType.RELA, info := 1, link := 2 }

/-- A RELA section holding cwRel1. -/
def cwRelaSec : Section := { header := cwRelaHdr, content := SectionContent.relocations [cwRel1] }

/-- The section list the C1 witness relocates over. -/
def cwC1secs : List Section := [{}, cwTarget, cwSymtabSec, cwRelaSec]

/-- A relocation of unsupported type R_X86_64_RELATIVE. -/
def cxRelBad : Relocation := { rtype := RelocationType.R_X86_64_RELATIVE }

/-- A RELA section holding the unsupported relocation. -/
def cxRelaBadSec : Section :=
  { header := cwRelaHdr, content := SectionContent.relocations [cxRelBad] }

/-- The section list on which the C1 witness observes the rejection. -/
def cxC1secs : List Section := [{}, cwTarget, cwSymtabSec, cxRelaBadSec]

/-- A GLOBAL symbol named [7] whose section index is Common: defined (the
scan accepts it) but not of the form Section(_). -/
def cx2sym : Symbol :=
  { shndx := SymbolSectionIndex.Common, bind := SymbolBind.GLOBAL, name := [7] }

/-- A SYMTAB section holding only cx2sym. -/
def cx2sec : Section :=
  { header := { shtype := SectionType.SYMTAB }, content := SectionContent.symbols [cx2sym] }

/-- The ELF of the C2 counterexample. -/
def cx2elf : Elf := { sections := [cx2sec] }

/-- A one-bit Bloom filter with its bit set, so the filter reports any
hash pair present. -/
def cx2bloom : BloomFilter := ⟨[true]⟩

/-- A WEAK symbol named [9] defined in section 2, for the C2 witness. -/
def cw2sym : Symbol :=
  { shndx := SymbolSectionIndex.Section 2, bind := SymbolBind.WEAK, name := [9] }

/-- The DYNSYM section of the C2 witness ELF. -/
def cw2sec : Section :=
  { header := { shtype := SectionType.DYNSYM }, content := SectionContent.symbols [cw2sym] }

/-- The full C2 witness ELF. -/
def cw2elf : Elf := { sections := [cw2sec] }

/-- A section whose link points at section 1 (the section the C3
counterexample moves, so this is a self-link). -/
def cx3s1 : Section := { header := { link := 1 } }

/-- A section with INFO_LINK set whose info points at section 2 (itself). -/
def cx3s2 : Section := { header := { flags := { info_link := true }, info := 2 } }

/-- The C3 counterexample container: moving section 1 to 2 and back
corrupts both the moved section's self-link and the INFO_LINK info. -/
def cx3secs : List Section := [{}, cx3s1, cx3s2]

/-- The C3 witness container: section 1 links below itself and no
INFO_LINK flag is set, so the round trip restores it exactly. -/
def cw3secs : List Section :=
  [{}, { header := { link := 0 } }, { header := { link := 2 } }, { header := { link := 1 } }]

/-- A section with INFO_LINK set and info = 1, sitting at index 1: the
insertion point of the C4 counterexample. -/
def cx4sec : Section := { header := { flags := { info_link := true }, info := 1 } }

/-- The C4 counterexample container. -/
def cx4secs : List Section := [{}, cx4sec]

/-- The C4 witness container: links and INFO_LINK infos referencing the
various regions around index 1. -/
def cw4secs : List Section :=
  [{ header := { link := 1, flags := { info_link := true }, info := 2 } },
   { header := { link := 2 } },
   { header := { link := 0, flags := { info_link := true }, info := 1 } }]

/-- A NOBITS section of size 1 (it skews voff one byte ahead of poff). -/
def cx6nb1 : Section := { header := { shtype := SectionType.NOBITS, size := 1 } }

/-- A NOBITS section with addralign 2: relayout assigns it the odd address
769. -/
def cx6nb2 : Section := { header := { shtype := SectionType.NOBITS, size := 3, addralign := 2 } }

/-- The C6 counterexample container (synced: NOBITS sections carry no
content, the null section's sizes agree). -/
def cx6secs : List Section := [{}, cx6nb1, cx6nb2]

/-- What relayout makes of cx6nb2: offset 768, address 769, so the address
is not a multiple of the alignment 2. -/
def cx6bad : Section :=
  { header := { shtype := SectionType.NOBITS, size := 3, addralign := 2,
                offset := 768, addr := 769 } }

/-- What relayout makes of cx6nb1. -/
def cx6mid : Section :=
  { header := { shtype := SectionType.NOBITS, size := 1, offset := 768, addr := 768 } }

/-- The C6 witness container: a synced PROGBITS section of two raw bytes
with alignment 4. -/
def cw6secs : List Section :=
  [{}, { header := { shtype := SectionType.PROGBITS, size := 2, addralign := 4 },
         content := SectionContent.raw [5, 6] }]

/-- A .hash section at address 44 for the C7 witness. -/
def cw7hash : Section := { name := nmHash, header := { addr := 44 } }

/-- The header of the C7 witness .rela.dyn section. -/
def cw7rdHdr : SectionHeader := { addr := 77, size := 48, entsize := 24 }

/-- A .rela.dyn section whose table is one RELATIVE entry followed by one
R_X86_64_64 entry: leading run 1, not covering the table. -/
def cw7rd : Section :=
  { name := nmRelaDyn, header := cw7rdHdr,
    content := SectionContent.relocations
      [{ rtype := RelocationType.R_X86_64_RELATIVE }, { rtype := RelocationType.R_X86_64_64 }] }

/-- The C7 witness section list. -/
def cw7secs : List Section := [cw7hash, cw7rd]

/-- The dynamic table DynamicRelocator::dynamic builds for cw7secs. -/
def cw7d : List Dynamic :=
  [pieEntry,
   ⟨DynamicType.HASH, DynamicContent.Address 44⟩,
   ⟨DynamicType.RELA, DynamicContent.Address 77⟩,
   ⟨DynamicType.RELASZ, DynamicContent.Address 48⟩,
   ⟨DynamicType.RELAENT, DynamicContent.Address 24⟩,
   ⟨DynamicType.RELACOUNT, DynamicContent.Address 1⟩,
   ⟨DynamicType.TEXTREL, DynamicContent.Address 1⟩,
   nullEntry]

/-- The symbol list of the C9 witness: two GLOBAL symbols out of value
order, a SECTION symbol to be dropped, and a LOCAL symbol. -/
def cw9syms : List Symbol :=
  [{ bind := SymbolBind.GLOBAL, value := 9, name := [1] },
   { stype := SymbolType.SECTION, shndx := SymbolSectionIndex.Section 1 },
   { bind := SymbolBind.GLOBAL, value := 3, name := [2] },
   { name := [3] }]

/-- The filesystem environment of the C8 instances: every path fails to
open. -/
def cx8fs : List Nat → Except LoadError FileKind :=
  fun _ => Except.error LoadError.InvalidMagic

/-- The bit-count sizing function of the C8 instances. -/
def cx8nb : Nat → Nat := fun n => n

/-- The hash function of the C8 instances. -/
def cx8hash : List Nat → Nat × Nat := fun _ => (0, 0)

/-- The error state the C8 counterexample starts from. -/
def cx8st : LState := LState.errorSt [0] LoadError.InvalidMagic

/-- The dynamic relocation the C1 witness produces: address 8 + 0x500,
addend 5 + 100. -/
def cwC1dynOut : Relocation :=
  { addr := 1288, sym := 0, rtype := RelocationType.R_X86_64_64, addend := 105 }

/-- The updated section list of the C1 witness: the RELA slot cleared and
the target WRITE-flagged. -/
def cwC1secsOut : List Section := (cwC1secs.set 3 {}).set 1 (setWriteFlag cwTarget)

/-! General list helper lemmas shared by several claims. -/

theorem mapOption_spec {α β : Type} (f : α → Option β) :
    ∀ (l : List α) (ys : List β), l.mapM f = Option.some ys →
      ys.length = l.length ∧
      ∀ k (h1 : k < l.length) (h2 : k < ys.length),
        f (l.get ⟨k, h1⟩) = Option.some (ys.get ⟨k, h2⟩) := by
  intro l
  induction l with
  | nil =>
    intro ys h
    rw [List.mapM_nil] at h
    have h' : Option.some ([] : List β) = Option.some ys := h
    cases h'
    exact ⟨rfl, fun k h1 h2 => absurd h1 (Nat.not_lt_zero k)⟩
  | cons a as ih =>
    intro ys h
    rw [List.mapM_cons] at h
    cases ha : f a with
    | none =>
      rw [ha] at h
      simp only [Option.bind_eq_bind, Option.none_bind] at h
      exact Option.noConfusion h
    | some b =>
      rw [ha] at h
      cases has : as.mapM f with
      | none =>
        rw [has] at h
        simp only [Option.bind_eq_bind, Option.some_bind, Option.none_bind] at h
        exact Option.noConfusion h
      | some bs =>
        rw [has] at h
        simp only [Option.bind_eq_bind, Option.some_bind, Option.pure_def,
          Option.some.injEq] at h
        obtain ⟨hlen, hget⟩ := ih bs has
        subst h
        refine ⟨by simp [hlen], ?_⟩
        intro k h1 h2
        cases k with
        | zero => simpa using ha
        | succ k =>
          simp only [List.get_eq_getElem, List.getElem_cons_succ]
          exact hget k (Nat.lt_of_succ_lt_succ h1) (Nat.lt_of_succ_lt_succ h2)

theorem mapOption_none_of_mem {α β : Type} (f : α → Option β) :
    ∀ (l : List α) (a : α), a ∈ l → f a = Option.none → l.mapM f = Option.none := by
  intro l
  induction l with
  | nil => intro a ha; cases ha
  | cons x xs ih =>
    intro a ha hfa
    rw [List.mapM_cons]
    rcases List.mem_cons.mp ha with h | h
    · subst h; rw [hfa]; rfl
    · cases hfx : f x with
      | none => rfl
      | some b => rw [ih a h hfa]; rfl

theorem map_insertIdx {α β : Type} (f : α → β) :
    ∀ (l : List α) (n : Nat) (a : α),
      (l.insertIdx n a).map f = (l.map f).insertIdx n (f a) := by
  intro l
  induction l with
  | nil =>
    intro n a
    cases n <;> simp
  | cons x xs ih =>
    intro n a
    cases n with
    | zero => simp
    | succ n => simp [List.insertIdx_succ_cons, ih n a]

theorem map_eraseIdx {α β : Type} (f : α → β) :
    ∀ (l : List α) (n : Nat), (l.eraseIdx n).map f = (l.map f).eraseIdx n := by
  intro l
  induction l with
  | nil => intro n; simp [List.eraseIdx]
  | cons x xs ih =>
    intro n
    cases n with
    | zero => simp [List.eraseIdx]
    | succ n => simp [List.eraseIdx, ih n]

theorem insertIdx_get_eraseIdx {α : Type} :
    ∀ (l : List α) (i : Nat) (h : i < l.length),
      (l.eraseIdx i).insertIdx i (l.get ⟨i, h⟩) = l := by
  intro l
  induction l with
  | nil => intro i h; cases h
  | cons x xs ih =>
    intro i h
    cases i with
    | zero => simp [List.eraseIdx]
    | succ i =>
      simp only [List.eraseIdx, List.insertIdx_succ_cons, List.cons.injEq, true_and]
      exact ih i (Nat.lt_of_succ_lt_succ h)

theorem insertIdx_append_at {α : Type} :
    ∀ (pre post : List α) (x : α),
      (pre ++ post).insertIdx pre.length x = pre ++ x :: post := by
  intro pre
  induction pre with
  | nil => intro post x; simp
  | cons p ps ih =>
    intro post x
    simp [List.insertIdx_succ_cons, ih]

/-! Claim C5: Bloom-filter soundness. -/

theorem getD_set_set_true (l : List Bool) (i j : Nat) (hi : i < l.length) :
    ((l.set i true).set j true).getD i false = true := by
  rw [List.getD_eq_getElem?_getD]
  by_cases hij : j = i
  · subst hij
    rw [List.getElem?_set_self (by simpa using hi)]
    rfl
  · rw [List.getElem?_set_ne hij, List.getElem?_set_self hi]
    rfl

/-- C5: a Bloom filter whose bit array is nonempty (as BloomFilter::new
produces for at least one predicted symbol) never gives a false
negative: inserting a hash pair and then querying it answers true. -/
theorem claim_C5_bloom_no_false_negative (bits : List Bool) (x : Nat × Nat)
    (h : 0 < bits.length) :
    ∃ b2, BloomFilter.insertHash ⟨bits⟩ x = Option.some b2 ∧
      b2.containsHash x = Option.some true := by
  have hne : bits.length ≠ 0 := Nat.pos_iff_ne_zero.mp h
  refine ⟨⟨(bits.set (x.1 % bits.length) true).set (x.2 % bits.length) true⟩, ?_, ?_⟩
  · simp [BloomFilter.insertHash, hne]
  have h1 : x.1 % bits.length < bits.length := Nat.mod_lt _ h
  have h2 : x.2 % bits.length < bits.length := Nat.mod_lt _ h
  have hlen : ((bits.set (x.1 % bits.length) true).set (x.2 % bits.length) true).length
      = bits.length := by simp
  rw [BloomFilter.containsHash]
  simp only [hlen, if_neg hne, Option.some.injEq]
  rw [getD_set_set_true _ _ _ h1]
  have hval : ((bits.set (x.1 % bits.length) true).set (x.2 % bits.length) true).getD
      (x.2 % bits.length) false = true := by
    rw [List.getD_eq_getElem?_getD, List.getElem?_set_self (by simpa using h2)]
    rfl
  rw [hval]
  rfl

/-- C5 witness at a concrete three-bit filter and the hash pair (4, 7). -/
theorem claim_C5_witness :
    ∃ b2, BloomFilter.insertHash ⟨[false, false, false]⟩ (4, 7) = Option.some b2 ∧
      b2.containsHash (4, 7) = Option.some true :=
  claim_C5_bloom_no_false_negative [false, false, false] (4, 7) (by decide)

/-! Claim C10: totality of the Raw merge. -/

/-- C10: merging a Raw section into an existing Raw bucket is total
exactly when the maximum of the two alignments is positive; with both
alignments zero the padding remainder cc.len() % align divides by zero
and the Rust code panics instead of returning an offset. -/
theorem claim_C10_merge_zero_align (dst src : Section) (cc r : List Nat)
    (hd : dst.content = SectionContent.raw cc)
    (hs : src.content = SectionContent.raw r) :
    (0 < max dst.header.addralign src.header.addralign →
      (mergeOccupied dst src).isSome = true) ∧
    (dst.header.addralign = 0 → src.header.addralign = 0 →
      mergeOccupied dst src = Option.none) := by
  constructor
  · intro hpos
    have hne : max dst.header.addralign src.header.addralign ≠ 0 :=
      Nat.pos_iff_ne_zero.mp hpos
    simp [mergeOccupied, hs, hd, SectionContent.asRaw, hne]
  · intro h1 h2
    simp [mergeOccupied, hs, hd, SectionContent.asRaw, h1, h2]

/-- C10 witness: a destination bucket with alignment 2 merges, and a pair
of zero-alignment Raw sections panics. -/
theorem claim_C10_witness :
    ((0 < max ({ header := { addralign := 2 }, content := SectionContent.raw [1, 2, 3] }
        : Section).header.addralign ({ content := SectionContent.raw [4] }
        : Section).header.addralign →
      (mergeOccupied { header := { addralign := 2 }, content := SectionContent.raw [1, 2, 3] }
        { content := SectionContent.raw [4] }).isSome = true)) ∧
    (mergeOccupied ({ content := SectionContent.raw [] } : Section)
      ({ content := SectionContent.raw [4] } : Section) = Option.none) :=
  ⟨(claim_C10_merge_zero_align _ _ [1, 2, 3] [4] rfl rfl).1,
   (claim_C10_merge_zero_align _ _ [] [4] rfl rfl).2 rfl rfl⟩

/-! Claim C2: State::contains on Elf states. -/

theorem asSymbols_eq_some (c : SectionContent) (ss : List Symbol) :
    c.asSymbols = Option.some ss ↔ c = SectionContent.symbols ss := by
  cases c <;> simp [SectionContent.asSymbols]

theorem asRelocations_eq_some (c : SectionContent) (rs : List Relocation) :
    c.asRelocations = Option.some rs ↔ c = SectionContent.relocations rs := by
  cases c <;> simp [SectionContent.asRelocations]

theorem symMatchesNeedle_iff (needle : List Nat) (sym : Symbol) :
    symMatchesNeedle needle sym = true ↔
      ((sym.bind = SymbolBind.GLOBAL ∨ sym.bind = SymbolBind.WEAK) ∧
       sym.shndx ≠ SymbolSectionIndex.Undefined ∧
       sym.shndx ≠ SymbolSectionIndex.Absolute ∧
       sym.name = needle) := by
  cases hb : sym.bind <;> cases hs : sym.shndx <;>
    simp [symMatchesNeedle, hb, hs]

theorem scanSections_spec (needle : List Nat) :
    ∀ (secs : List Section) (b : Bool),
      scanSectionsForNeedle needle secs = Option.some b →
      (b = true ↔ ∃ sec ∈ secs,
        (sec.header.shtype = SectionType.SYMTAB ∨ sec.header.shtype = SectionType.DYNSYM) ∧
        ∃ ss, sec.content = SectionContent.symbols ss ∧
          ss.any (symMatchesNeedle needle) = true) := by
  intro secs
  induction secs with
  | nil =>
    intro b h
    have hb : b = false := by
      have h' : Option.some false = Option.some b := h
      exact (Option.some.inj h').symm
    subst hb
    simp
  | cons sec rest ih =>
    intro b h
    rw [scanSectionsForNeedle] at h
    by_cases hty : sec.header.shtype = SectionType.SYMTAB ∨
        sec.header.shtype = SectionType.DYNSYM
    · rw [if_pos hty] at h
      cases hc : sec.content.asSymbols with
      | none => rw [hc] at h; exact Option.noConfusion h
      | some ss =>
        rw [hc] at h
        have h2 : (if ss.any (symMatchesNeedle needle) = true then Option.some true
            else scanSectionsForNeedle needle rest) = Option.some b := h
        have hcc : sec.content = SectionContent.symbols ss := (asSymbols_eq_some _ _).mp hc
        by_cases hany : ss.any (symMatchesNeedle needle) = true
        · rw [if_pos hany] at h2
          have hb : b = true := (Option.some.inj h2).symm
          subst hb
          simp only [true_iff]
          exact ⟨sec, List.mem_cons_self sec rest, hty, ss, hcc, hany⟩
        · rw [if_neg hany] at h2
          rw [ih b h2]
          constructor
          · rintro ⟨s, hs, hp⟩
            exact ⟨s, List.mem_cons_of_mem sec hs, hp⟩
          · rintro ⟨s, hs, hp1, ss2, hp2, hp3⟩
            rcases List.mem_cons.mp hs with hEq | hm
            · subst hEq
              rw [hcc] at hp2
              cases SectionContent.symbols.inj hp2
              exact absurd hp3 hany
            · exact ⟨s, hm, hp1, ss2, hp2, hp3⟩
    · rw [if_neg hty] at h
      rw [ih b h]
      constructor
      · rintro ⟨s, hs, hp⟩
        exact ⟨s, List.mem_cons_of_mem sec hs, hp⟩
      · rintro ⟨s, hs, hp1, hp2⟩
        rcases List.mem_cons.mp hs with hEq | hm
        · subst hEq; exact absurd hp1 hty
        · exact ⟨s, hm, hp1, hp2⟩

/-- C2 (amended): State::contains on an Elf state answers true exactly
when the Bloom filter reports the hash pair present and some
SYMTAB/DYNSYM section holds a GLOBAL or WEAK symbol whose section index
is neither Undefined nor Absolute (that is, Section(_) or Common) and
whose name equals the needle. -/
theorem claim_C2_contains_elf (name : List Nat) (e : Elf) (bloom : BloomFilter)
    (needle : List Nat) (nh : Nat × Nat) (b : Bool)
    (h : LState.containsNeedle (LState.elfSt name e bloom) needle nh = Option.some b) :
    b = true ↔ elfContainsSpec e bloom needle nh := by
  have h' : elfContains e bloom needle nh = Option.some b := h
  rw [elfContains] at h'
  cases hb : bloom.containsHash nh with
  | none => rw [hb] at h'; exact Option.noConfusion h'
  | some bv =>
    rw [hb] at h'
    cases bv with
    | false =>
      have hbf : b = false := (Option.some.inj h').symm
      subst hbf
      constructor
      · intro hfalse; exact absurd hfalse (by simp)
      · rintro ⟨h1, _⟩
        rw [hb] at h1
        exact absurd (Option.some.inj h1) (by simp)
    | true =>
      rw [scanSections_spec needle e.sections b h']
      unfold elfContainsSpec elfScanSpec
      rw [hb]
      simp only [true_and, List.any_eq_true, symMatchesNeedle_iff]

/-- C2 counterexample: an Elf state whose SYMTAB holds a GLOBAL symbol
named [7] with shndx = Common, and a Bloom filter reporting every pair
present.  contains answers true, yet no section holds a matching symbol
whose shndx is of the form Section(_), as the claim as stated demands. -/
theorem claim_C2_counterexample :
    LState.containsNeedle (LState.elfSt [] cx2elf cx2bloom) [7] (0, 0) = Option.some true ∧
    (cx2elf.sections.any (fun sec =>
      (sec.header.shtype == SectionType.SYMTAB || sec.header.shtype == SectionType.DYNSYM)
      && (match sec.content.asSymbols with
          | Option.some ss => ss.any (fun sym =>
              (sym.bind == SymbolBind.GLOBAL || sym.bind == SymbolBind.WEAK)
              && (match sym.shndx with
                  | SymbolSectionIndex.Section _ => true
                  | _ => false)
              && (sym.name == [7]))
          | Option.none => false))) = false := by
  constructor
  · rfl
  · rfl

/-- C2 witness: a DYNSYM with a WEAK symbol named [9] defined in section
2 and a one-bit Bloom filter with its bit set. -/
theorem claim_C2_witness :
    (true = true ↔ elfContainsSpec cw2elf cx2bloom [9] (1, 2)) :=
  claim_C2_contains_elf [] cw2elf cx2bloom [9] (1, 2) true (by rfl)

/-! Claim C4: remove_section and insert_section reference updates. -/

/-- C4 (amended): remove_section(at) turns every surviving link equal to
at into 0 and decrements links greater than at, and does the same for
info exactly on INFO_LINK sections; insert_section(at, s) increments
every link at or past at, but increments INFO_LINK infos only when they
are strictly greater than at (an info equal to at is left unchanged),
leaving all other fields as they were. -/
theorem claim_C4_remove_insert (at_ : Nat) (s : Section) (secs : List Section) :
    removeSectionSpec at_ secs ∧ insertSectionSpec at_ s secs := by
  constructor
  · intro r out h
    rw [removeSection] at h
    cases hg : secs.get? at_ with
    | none => rw [hg] at h; exact Option.noConfusion h
    | some r0 =>
      rw [hg] at h
      have hpair := Option.some.inj h
      injection hpair with h1 h2
      have hat : at_ < secs.length := by
        rw [List.get?_eq_getElem?] at hg
        exact (List.getElem?_eq_some.mp hg).1
      subst h2
      constructor
      · rw [List.length_map, List.length_eraseIdx]
        simp [hat]
      · intro k hk
        have hk' : k < (secs.eraseIdx at_).length := by
          simpa using hk
        have hkel : k < secs.length - 1 := by
          rw [List.length_eraseIdx] at hk'
          simpa [hat] using hk'
        by_cases hlt : k < at_
        · have hs : (if k < at_ then k else k + 1) < secs.length := by
            rw [if_pos hlt]; omega
          refine ⟨hs, ?_⟩
          simp only [List.get_eq_getElem, List.getElem_map]
          rw [List.getElem_eraseIdx_of_lt secs at_ k hk' hlt]
          simp only [if_pos hlt] at hs ⊢
          rfl
        · have hs : (if k < at_ then k else k + 1) < secs.length := by
            rw [if_neg hlt]; omega
          refine ⟨hs, ?_⟩
          simp only [List.get_eq_getElem, List.getElem_map]
          rw [List.getElem_eraseIdx_of_ge secs at_ k hk' (Nat.le_of_not_lt hlt)]
          simp only [if_neg hlt] at hs ⊢
          rfl
  · intro out h
    rw [insertSection] at h
    by_cases hle : at_ ≤ secs.length
    · rw [if_pos hle] at h
      have hout : out = (secs.insertIdx at_ s).map (adjOnInsert at_) :=
        (Option.some.inj h).symm
      subst hout
      have hlen : (secs.insertIdx at_ s).length = secs.length + 1 :=
        List.length_insertIdx at_ secs hle
      refine ⟨by simp [hlen], ?_⟩
      intro k hk
      have hk0 : k < (secs.insertIdx at_ s).length := by simpa using hk
      refine ⟨?_, ?_, ?_⟩
      · intro hlt hs
        simp only [List.get_eq_getElem, List.getElem_map]
        rw [List.getElem_insertIdx_of_lt secs s at_ k hlt hs]
      · intro hEq
        subst hEq
        simp only [List.get_eq_getElem, List.getElem_map]
        rw [List.getElem_insertIdx_self secs s k hle]
      · intro hgt hs
        simp only [List.get_eq_getElem, List.getElem_map]
        obtain ⟨m, rfl⟩ : ∃ m, k = at_ + m + 1 := ⟨k - at_ - 1, by omega⟩
        have h4 := List.getElem_insertIdx_add_succ secs s at_ m (by omega)
        simp only [Nat.add_sub_cancel]
        rw [h4]
    · rw [if_neg hle] at h
      exact Option.noConfusion h

/-- C4 counterexample: inserting at index 1 into a container whose
second section has INFO_LINK set and info = 1.  The claim as stated
increments every INFO_LINK info at or past the insertion point, which
would give info = 2, but the code leaves info = 1 because the update is
strict. -/
theorem claim_C4_counterexample :
    (insertSection 1 {} cx4secs).map (List.map (fun sec => sec.header.info))
      = Option.some [0, 0, 1] ∧
    ¬ ((insertSection 1 {} cx4secs).map (List.map (fun sec => sec.header.info))
      = Option.some [0, 0, 2]) := by
  constructor
  · rfl
  · intro h
    have h2 : ([0, 0, 1] : List Nat) = [0, 0, 2] := by
      have h1 : (insertSection 1 ({} : Section) cx4secs).map
          (List.map (fun sec => sec.header.info)) = Option.some [0, 0, 1] := rfl
      rw [h1] at h
      exact Option.some.inj h
    simp at h2

/-- C4 witness: both operations at index 1 of a three-section container
with links and INFO_LINK infos around the index, plus the concrete
evaluations showing the hypotheses of the specification are realized. -/
theorem claim_C4_witness :
    (removeSectionSpec 1 cw4secs ∧ insertSectionSpec 1 {} cw4secs) ∧
    (removeSection 1 cw4secs).isSome = true ∧
    (insertSection 1 {} cw4secs).isSome = true :=
  ⟨claim_C4_remove_insert 1 {} cw4secs, by rfl, by rfl⟩

/-! Claim C1: the RELA pass of DynamicRelocator::relocate. -/

theorem relaTransform_none (secaddr : Nat) (symtab : List Symbol) (r : Relocation)
    (h : r.rtype ≠ RelocationType.R_X86_64_64) :
    relaTransform secaddr symtab r = Option.none := by
  rw [relaTransform]
  cases hs : symtab.get? r.sym with
  | none => rfl
  | some sym =>
    cases hty : r.rtype with
    | R_X86_64_64 => exact absurd hty h
    | R_X86_64_RELATIVE => rfl
    | R_X86_64_JUMP_SLOT => rfl
    | other v => rfl

/-- C1: every RELA section DynamicRelocator::relocate processes has each
R_X86_64_64 relocation against a symbol of value v in a target section at
address A rewritten into a dynamic relocation with sym = 0, addr =
orig.addr + A, addend = orig.addend + v, appended in order to the dynamic
relocation list, with the target section's WRITE flag set; and any
relocation of a different type is rejected (the pass panics and produces
no result). -/
theorem claim_C1_rela_rewrite :
    (∀ secs i out, relaStep secs i = Option.some out → relaStepOkSpec secs i out) ∧
    (∀ secs i relasec rs r, secs.get? i = Option.some relasec →
      relasec.content = SectionContent.relocations rs → r ∈ rs →
      r.rtype ≠ RelocationType.R_X86_64_64 → relaStep secs i = Option.none) := by
  constructor
  · intro secs i out h
    rw [relaStep] at h
    cases hg : secs.get? i with
    | none => rw [hg, Option.none_bind] at h; exact Option.noConfusion h
    | some relasec =>
      rw [hg, Option.some_bind] at h
      cases ht : (secs.set i {}).get? relasec.header.info with
      | none => rw [ht, Option.none_bind] at h; exact Option.noConfusion h
      | some target =>
        rw [ht, Option.some_bind] at h
        cases hl : ((secs.set i {}).set relasec.header.info
            (setWriteFlag target)).get? relasec.header.link with
        | none => rw [hl, Option.none_bind] at h; exact Option.noConfusion h
        | some stsec =>
          rw [hl, Option.some_bind] at h
          cases hsym : stsec.content.asSymbols with
          | none => rw [hsym, Option.none_bind] at h; exact Option.noConfusion h
          | some symtab =>
            rw [hsym, Option.some_bind] at h
            cases hrel : relasec.content.asRelocations with
            | none => rw [hrel, Option.none_bind] at h; exact Option.noConfusion h
            | some rs =>
              rw [hrel, Option.some_bind] at h
              cases hmm : rs.mapM (relaTransform target.header.addr symtab) with
              | none => rw [hmm] at h; exact Option.noConfusion h
              | some dynAdds =>
                rw [hmm, Option.map_some'] at h
                have hout : out = (((secs.set i {}).set relasec.header.info
                    (setWriteFlag target)), dynAdds) := (Option.some.inj h).symm
                subst hout
                obtain ⟨hlen, hget⟩ := mapOption_spec _ rs dynAdds hmm
                have hinfo : relasec.header.info < (secs.set i {}).length := by
                  rw [List.get?_eq_getElem?] at ht
                  exact (List.getElem?_eq_some.mp ht).1
                have hr64 : ∀ r ∈ rs, r.rtype = RelocationType.R_X86_64_64 := by
                  intro r hr
                  obtain ⟨⟨k, hk⟩, rfl⟩ := List.mem_iff_get.mp hr
                  have h5 := hget k hk (hlen ▸ hk)
                  rw [relaTransform] at h5
                  cases hsg : symtab.get? (rs.get ⟨k, hk⟩).sym with
                  | none => rw [hsg] at h5; exact Option.noConfusion h5
                  | some sym =>
                    rw [hsg] at h5
                    cases hty : (rs.get ⟨k, hk⟩).rtype with
                    | R_X86_64_64 => rfl
                    | R_X86_64_RELATIVE => rw [hty] at h5; exact Option.noConfusion h5
                    | R_X86_64_JUMP_SLOT => rw [hty] at h5; exact Option.noConfusion h5
                    | other v => rw [hty] at h5; exact Option.noConfusion h5
                refine ⟨relasec, rs, target, symtab, stsec, hg,
                  (asRelocations_eq_some _ _).mp hrel, ht, rfl, ?_, rfl, hl, hsym,
                  hr64, hlen, ?_⟩
                · rw [List.get?_eq_getElem?]
                  exact List.getElem?_set_self (by simpa using hinfo)
                · intro k hk hk2
                  have h5 := hget k hk hk2
                  rw [relaTransform] at h5
                  cases hsg : symtab.get? (rs.get ⟨k, hk⟩).sym with
                  | none => rw [hsg] at h5; exact Option.noConfusion h5
                  | some sym =>
                    rw [hsg] at h5
                    have hty := hr64 (rs.get ⟨k, hk⟩) (List.get_mem rs k hk)
                    rw [hty] at h5
                    refine ⟨sym, rfl, ?_⟩
                    have h6 := Option.some.inj h5
                    rw [← h6]
  · intro secs i relasec rs r hg hcont hmem hty
    rw [relaStep, hg, Option.some_bind]
    have hrel : relasec.content.asRelocations = Option.some rs :=
      (asRelocations_eq_some _ _).mpr hcont
    cases ht : (secs.set i {}).get? relasec.header.info with
    | none => rw [Option.none_bind]
    | some target =>
      rw [Option.some_bind]
      cases hl : ((secs.set i {}).set relasec.header.info
          (setWriteFlag target)).get? relasec.header.link with
      | none => rw [Option.none_bind]
      | some stsec =>
        rw [Option.some_bind]
        cases hsym : stsec.content.asSymbols with
        | none => rw [Option.none_bind]
        | some symtab =>
          rw [Option.some_bind, hrel, Option.some_bind]
          rw [mapOption_none_of_mem (relaTransform target.header.addr symtab) rs r hmem
            (relaTransform_none target.header.addr symtab r hty)]
          rfl

/-- C1 witness: the concrete pass over cwC1secs rewrites the single
R_X86_64_64 relocation as specified, and the concrete pass over cxC1secs,
whose relocation is R_X86_64_RELATIVE, is rejected. -/
theorem claim_C1_witness :
    relaStepOkSpec cwC1secs 3 (cwC1secsOut, [cwC1dynOut]) ∧
    relaStep cxC1secs 3 = Option.none :=
  ⟨claim_C1_rela_rewrite.1 cwC1secs 3 (cwC1secsOut, [cwC1dynOut]) (by rfl),
   claim_C1_rela_rewrite.2 cxC1secs 3 cxRelaBadSec [cxRelBad] cxRelBad rfl rfl
     (List.mem_singleton.mpr rfl) (by decide)⟩

/-! Claim C6: relayout invariants. -/

theorem roundUp_mod (p a : Nat) (ha : 0 < a) (hne : p % a ≠ 0) :
    (p + (a - p % a)) % a = 0 := by
  have h1 : a * (p / a) + p % a = p := Nat.div_add_mod p a
  have h2 : p % a < a := Nat.mod_lt _ ha
  have h3 : p + (a - p % a) = a * (p / a + 1) := by
    rw [Nat.mul_succ]
    omega
  rw [h3, Nat.mul_mod_right]

theorem alignDelta_mod (p a : Nat) (ha : 0 < a) : (p + alignDelta p a) % a = 0 := by
  rw [alignDelta]
  by_cases hz : p % a = 0
  · rw [if_neg (by simp [hz])]
    simpa using hz
  · rw [if_pos ⟨ha, hz⟩]
    exact roundUp_mod p a ha hz

theorem pageFix_ge (p1 v1 : Nat) (ty : SectionType) : v1 ≤ pageFix p1 v1 ty := by
  rw [pageFix]
  split_ifs <;> omega

theorem pageFix_mod (p1 v1 : Nat) (ty : SectionType) (hpv : p1 ≤ v1)
    (hty : ty ≠ SectionType.NOBITS) :
    (pageFix p1 v1 ty - p1) % 0x200000 = 0 := by
  rw [pageFix]
  by_cases hz : (v1 - p1) % 0x200000 = 0
  · rw [if_neg (by simp [hz])]
    exact hz
  · rw [if_pos ⟨hty, hz⟩]
    have h1 : v1 + (0x200000 - (v1 - p1) % 0x200000) - p1
        = (v1 - p1) + (0x200000 - (v1 - p1) % 0x200000) := by omega
    rw [h1]
    exact roundUp_mod (v1 - p1) 0x200000 (by norm_num) hz

theorem relayoutGo_spec (eh : Header) :
    ∀ (secs : List Section) (poff voff : Nat),
      (∀ sec ∈ secs,
        (sec.header.shtype ≠ SectionType.NOBITS →
          sec.content.sizeOf eh = Option.some sec.header.size) ∧
        (sec.header.shtype = SectionType.NOBITS → sec.content = SectionContent.none)) →
      poff ≤ voff → 0x300 ≤ poff →
      ∃ out, relayoutGo eh poff voff secs = Option.some out ∧
        out.length = secs.length ∧ ∀ sec ∈ out, layoutInvariant sec := by
  intro secs
  induction secs with
  | nil =>
    intro poff voff hsync hpv hbase
    exact ⟨[], rfl, rfl, by simp⟩
  | cons sec rest ih =>
    intro poff voff hsync hpv hbase
    have hsec := hsync sec (List.mem_cons_self sec rest)
    have hsyncr : ∀ s ∈ rest,
        (s.header.shtype ≠ SectionType.NOBITS →
          s.content.sizeOf eh = Option.some s.header.size) ∧
        (s.header.shtype = SectionType.NOBITS → s.content = SectionContent.none) :=
      fun s hs => hsync s (List.mem_cons_of_mem sec hs)
    have hguard : ¬ (sec.header.shtype ≠ SectionType.NOBITS ∧
        voff + alignDelta poff sec.header.addralign
          < poff + alignDelta poff sec.header.addralign) := by
      rintro ⟨_, hlt⟩
      omega
    have hfix := pageFix_ge (poff + alignDelta poff sec.header.addralign)
      (voff + alignDelta poff sec.header.addralign) sec.header.shtype
    obtain ⟨csz, hcsz, hcszv⟩ : ∃ csz, sec.content.sizeOf eh = Option.some csz ∧
        poff + alignDelta poff sec.header.addralign + csz
          ≤ pageFix (poff + alignDelta poff sec.header.addralign)
              (voff + alignDelta poff sec.header.addralign) sec.header.shtype
            + sec.header.size := by
      by_cases hnb : sec.header.shtype = SectionType.NOBITS
      · have hcn := hsec.2 hnb
        refine ⟨0, by rw [hcn]; rfl, by omega⟩
      · have hcs := hsec.1 hnb
        refine ⟨sec.header.size, hcs, by omega⟩
    obtain ⟨out2, hout2, hlen2, hinv2⟩ := ih
      (poff + alignDelta poff sec.header.addralign + csz)
      (pageFix (poff + alignDelta poff sec.header.addralign)
          (voff + alignDelta poff sec.header.addralign) sec.header.shtype
        + sec.header.size)
      hsyncr (by omega) (by omega)
    refine ⟨{ sec with header := { sec.header with
        offset := poff + alignDelta poff sec.header.addralign,
        addr := pageFix (poff + alignDelta poff sec.header.addralign)
          (voff + alignDelta poff sec.header.addralign) sec.header.shtype } } :: out2,
      ?_, by simpa using hlen2, ?_⟩
    · rw [relayoutGo, if_neg hguard, hcsz, Option.some_bind, hout2, Option.map_some']
    · intro s hs
      rcases List.mem_cons.mp hs with hEq | hm
      · subst hEq
        unfold layoutInvariant
        dsimp only
        refine ⟨?_, ?_, ?_, ?_⟩
        · intro hpos
          exact alignDelta_mod poff sec.header.addralign hpos
        · intro hty
          refine ⟨pageFix_mod _ _ _ (by omega) hty, ?_⟩
          have := pageFix_ge (poff + alignDelta poff sec.header.addralign)
            (voff + alignDelta poff sec.header.addralign) sec.header.shtype
          omega
        · omega
        · omega
      · exact hinv2 s hm

/-- C6 (amended): after relayout on a synced container (non-NOBITS header
sizes equal content sizes, NOBITS sections carry no content), the pass
succeeds and every section after the null section has its offset a
multiple of any positive addralign, non-NOBITS sections have address and
offset congruent modulo 0x200000 with offset never exceeding address, and
offsets and addresses start at or after the fixed base 0x300.  (The
original claim's assertion that the address is also a multiple of
addralign fails: voff is advanced by the same delta as poff rather than
rounded, see the counterexample.) -/
theorem claim_C6_relayout (eh : Header) (secs : List Section)
    (hne : secs ≠ []) (hsync : syncedSections eh secs) :
    ∃ out, relayoutSections eh secs = Option.some out ∧
      out.length = secs.length ∧ out.head? = secs.head? ∧
      ∀ k, 1 ≤ k → ∀ (hk : k < out.length), layoutInvariant (out.get ⟨k, hk⟩) := by
  cases secs with
  | nil => exact absurd rfl hne
  | cons s0 rest =>
    obtain ⟨out2, hout2, hlen2, hinv2⟩ := relayoutGo_spec eh rest 0x300 0x300
      (fun s hs => hsync s (List.mem_cons_of_mem s0 hs)) (le_refl _) (le_refl _)
    refine ⟨s0 :: out2, ?_, by simpa using hlen2, rfl, ?_⟩
    · rw [relayoutSections, hout2, Option.map_some']
    · intro k hk1 hk
      cases k with
      | zero => exact absurd hk1 (by norm_num)
      | succ m =>
        have hm : m < out2.length := by simpa using hk
        have : (s0 :: out2).get ⟨m + 1, hk⟩ = out2.get ⟨m, hm⟩ := rfl
        rw [this]
        exact hinv2 _ (List.get_mem out2 m hm)

/-- C6 counterexample: on the synced container cx6secs (a NOBITS section
of size 1 followed by a NOBITS section with addralign 2) relayout returns
successfully, yet the second laid-out section has addralign 2 and the odd
address 769: the claim's assertion that header.addr is a multiple of a
positive header.addralign is false. -/
theorem claim_C6_counterexample :
    relayoutSections ({} : Header) cx6secs = Option.some [{}, cx6mid, cx6bad] ∧
    0 < cx6bad.header.addralign ∧ cx6bad.header.addr % cx6bad.header.addralign = 1 := by
  refine ⟨by decide, by decide, by decide⟩

/-- C6 witness: the synced two-section container cw6secs. -/
theorem claim_C6_witness :
    ∃ out, relayoutSections ({} : Header) cw6secs = Option.some out ∧
      out.length = cw6secs.length ∧ out.head? = cw6secs.head? ∧
      ∀ k, 1 ≤ k → ∀ (hk : k < out.length), layoutInvariant (out.get ⟨k, hk⟩) :=
  claim_C6_relayout {} cw6secs (by decide) (by unfold syncedSections; decide)

/-! Claim C9: the gnu-ld compatibility symbol table. -/

theorem insertSecSymsFold_spec :
    ∀ (k : Nat) (pre post : List (Nat × Symbol)) (base : Nat),
      ∃ keyed,
        insertSecSymsFold (pre ++ post) base (List.range' pre.length k)
          = (pre ++ keyed ++ post, base + k) ∧
        keyed.map Prod.snd = (List.range' pre.length k).map sectionSymbol := by
  intro k
  induction k with
  | zero =>
    intro pre post base
    exact ⟨[], by simp [insertSecSymsFold], by simp⟩
  | succ k ih =>
    intro pre post base
    rw [List.range'_succ]
    have h1 : insertSecSymsFold (pre ++ post) base
          (pre.length :: List.range' (pre.length + 1) k)
        = insertSecSymsFold (pre ++ (base, sectionSymbol pre.length) :: post) (base + 1)
            (List.range' (pre.length + 1) k) := by
      simp [insertSecSymsFold, List.foldl_cons, insertIdx_append_at]
    obtain ⟨keyed, hk1, hk2⟩ := ih (pre ++ [(base, sectionSymbol pre.length)]) post (base + 1)
    have e3 : (pre ++ [(base, sectionSymbol pre.length)]).length = pre.length + 1 := by simp
    rw [e3] at hk1 hk2
    refine ⟨(base, sectionSymbol pre.length) :: keyed, ?_, ?_⟩
    · rw [h1]
      have e2 : pre ++ (base, sectionSymbol pre.length) :: post
          = (pre ++ [(base, sectionSymbol pre.length)]) ++ post := by simp
      rw [e2, hk1]
      simp [Prod.ext_iff, List.append_assoc]
      omega
    · rw [List.map_cons, hk2]
      rfl

theorem mergeSort_value_trans :
    ∀ (a b c : Nat × Symbol),
      (a.2.value ≤ b.2.value : Bool) → (b.2.value ≤ c.2.value : Bool) →
      (a.2.value ≤ c.2.value : Bool) := by
  intro a b c hab hbc
  simp only [decide_eq_true_eq] at hab hbc ⊢
  omega

theorem mergeSort_value_total :
    ∀ (a b : Nat × Symbol),
      ((a.2.value ≤ b.2.value : Bool) || (b.2.value ≤ a.2.value : Bool)) = true := by
  intro a b
  simp only [Bool.or_eq_true, decide_eq_true_eq]
  omega

/-- Normal form of the rebuilt symbol table: the zero symbol, the fresh
section symbols, the surviving non-GLOBAL symbols, the FILE symbol, then
the sorted GLOBAL symbols. -/
theorem gnuldSymtab_normal (syms : List Symbol) (nsec : Nat) :
    ∃ secsyms lsv glv,
      gnuldSymtab syms nsec = ({} : Symbol) :: (secsyms ++ (lsv ++ ([fileSymbol] ++ glv))) ∧
      secsyms = (List.range' 1 (nsec - 1)).map sectionSymbol ∧
      lsv = ((syms.enum.filter (fun p => !(p.2.stype == SymbolType.SECTION))).filter
            (fun p => !(p.2.bind == SymbolBind.GLOBAL))).map Prod.snd ∧
      glv = (((syms.enum.filter (fun p => !(p.2.stype == SymbolType.SECTION))).filter
            (fun p => p.2.bind == SymbolBind.GLOBAL)).mergeSort
            (fun a b => a.2.value ≤ b.2.value)).map Prod.snd := by
  obtain ⟨keyed, hfold, hkeyed⟩ :=
    insertSecSymsFold_spec (nsec - 1)
      [(syms.length, ({} : Symbol))]
      ((syms.enum.filter (fun p => !(p.2.stype == SymbolType.SECTION))).filter
        (fun p => !(p.2.bind == SymbolBind.GLOBAL)))
      (syms.length + 1)
  simp only [List.length_cons, List.length_nil, Nat.zero_add] at hfold hkeyed
  refine ⟨keyed.map Prod.snd, _, _, ?_, by rw [hkeyed], rfl, rfl⟩
  rw [gnuldSymtab]
  have e1 : ((syms.length, ({} : Symbol)) ::
      (syms.enum.filter (fun p => !(p.2.stype == SymbolType.SECTION))).filter
        (fun p => !(p.2.bind == SymbolBind.GLOBAL)))
      = [(syms.length, ({} : Symbol))] ++
      (syms.enum.filter (fun p => !(p.2.stype == SymbolType.SECTION))).filter
        (fun p => !(p.2.bind == SymbolBind.GLOBAL)) := rfl
  rw [e1, hfold]
  simp [List.map_append, List.append_assoc]

/-- C9: after the gnu-ld compatibility pass, the rebuilt symbol table has
the all-zero symbol at index 0, the fresh LOCAL SECTION symbol for
section i at every index 1 ≤ i < nsec, all GLOBAL symbols after all
non-GLOBAL ones, and the GLOBAL symbols in ascending order of value. -/
theorem claim_C9_gnuld_symtab (syms : List Symbol) (nsec : Nat) : gnuldSpec syms nsec := by
  obtain ⟨secsyms, lsv, glv, hout, hsec, hlsv, hglv⟩ := gnuldSymtab_normal syms nsec
  refine ⟨?_, ?_, ?_⟩
  · rw [hout]
    rfl
  · intro i h1 h2
    rw [hout]
    obtain ⟨m, rfl⟩ : ∃ m, i = m + 1 := ⟨i - 1, by omega⟩
    rw [List.get?_eq_getElem?, List.getElem?_cons_succ]
    have hm : m < secsyms.length := by
      rw [hsec]
      simp
      omega
    rw [List.getElem?_append_left hm]
    rw [hsec]
    have hm2 : m < nsec - 1 := by omega
    rw [List.getElem?_map, List.getElem?_range' 1 1 hm2]
    simp [Nat.add_comm]
  · refine ⟨({} : Symbol) :: (secsyms ++ (lsv ++ [fileSymbol])), glv, ?_, ?_, ?_, ?_⟩
    · rw [hout]
      simp [List.append_assoc]
    · intro s hs
      simp only [List.mem_cons, List.mem_append, List.mem_singleton,
        List.not_mem_nil, or_false] at hs
      rcases hs with h0 | hss | hll | hf
      · subst h0
        simp
      · rw [hsec] at hss
        obtain ⟨j, hj, rfl⟩ := List.mem_map.mp hss
        simp [sectionSymbol]
      · rw [hlsv] at hll
        obtain ⟨p, hp, rfl⟩ := List.mem_map.mp hll
        have := (List.mem_filter.mp hp).2
        simp only [Bool.not_eq_true', beq_eq_false_iff_ne, ne_eq] at this
        exact this
      · subst hf
        simp [fileSymbol]
    · intro s hs
      rw [hglv] at hs
      obtain ⟨p, hp, rfl⟩ := List.mem_map.mp hs
      have hp2 := List.mem_mergeSort.mp hp
      have := (List.mem_filter.mp hp2).2
      simpa using this
    · have hsorted := @List.sorted_mergeSort (Nat × Symbol)
        (fun a b => (a.2.value ≤ b.2.value : Bool))
        mergeSort_value_trans mergeSort_value_total
        ((syms.enum.filter (fun p => !(p.2.stype == SymbolType.SECTION))).filter
          (fun p => p.2.bind == SymbolBind.GLOBAL))
      rw [hglv]
      refine List.Pairwise.map Prod.snd ?_ hsorted
      intro a b hab
      simpa using hab

/-- C9 witness: the concrete four-symbol table cw9syms over three
sections. -/
theorem claim_C9_witness : gnuldSpec cw9syms 3 := claim_C9_gnuld_symtab cw9syms 3

/-! Claim C7: the .dynamic table built by DynamicRelocator::dynamic. -/

theorem mapM_mem_left {α β : Type} (f : α → Option β) (l : List α) (ys : List β)
    (h : l.mapM f = Option.some ys) :
    ∀ b ∈ ys, ∃ a ∈ l, f a = Option.some b := by
  obtain ⟨hlen, hget⟩ := mapOption_spec f l ys h
  intro b hb
  obtain ⟨⟨k, hk⟩, rfl⟩ := List.mem_iff_get.mp hb
  exact ⟨l.get ⟨k, by omega⟩, List.get_mem l k (by omega), hget k (by omega) hk⟩

theorem mapM_mem_right {α β : Type} (f : α → Option β) (l : List α) (ys : List β)
    (h : l.mapM f = Option.some ys) :
    ∀ a ∈ l, ∃ b ∈ ys, f a = Option.some b := by
  obtain ⟨hlen, hget⟩ := mapOption_spec f l ys h
  intro a ha
  obtain ⟨⟨k, hk⟩, rfl⟩ := List.mem_iff_get.mp ha
  exact ⟨ys.get ⟨k, by omega⟩, List.get_mem ys k (by omega), hget k hk (by omega)⟩

theorem dynamicList_eq (secs : List Section) (d : List Dynamic)
    (h : dynamicList secs = Option.some d) :
    ∃ ps, secs.mapM dynEntriesFor = Option.some ps ∧
      d = pieEntry :: (ps.flatten ++ [nullEntry]) := by
  rw [dynamicList] at h
  cases hm : secs.mapM dynEntriesFor with
  | none => rw [hm] at h; exact Option.noConfusion h
  | some ps =>
    rw [hm, Option.map_some'] at h
    exact ⟨ps, rfl, (Option.some.inj h).symm⟩

theorem exists_dhtype_cons_append (flat : List Dynamic) (t : DynamicType)
    (h1 : t ≠ DynamicType.FLAGS_1) (h2 : t ≠ DynamicType.NULL) :
    (∃ e ∈ pieEntry :: (flat ++ [nullEntry]), e.dhtype = t) ↔
      (∃ e ∈ flat, e.dhtype = t) := by
  constructor
  · rintro ⟨e, he, hty⟩
    rcases List.mem_cons.mp he with rfl | he2
    · exact absurd hty.symm h1
    · rcases List.mem_append.mp he2 with hf | hn
      · exact ⟨e, hf, hty⟩
      · rw [List.mem_singleton.mp hn] at hty
        exact absurd hty.symm h2
  · rintro ⟨e, he, hty⟩
    exact ⟨e, List.mem_cons_of_mem _ (List.mem_append_left _ he), hty⟩

theorem mem_cons_append_iff (flat : List Dynamic) (ent : Dynamic)
    (h1 : ent ≠ pieEntry) (h2 : ent ≠ nullEntry) :
    (ent ∈ pieEntry :: (flat ++ [nullEntry])) ↔ ent ∈ flat := by
  constructor
  · intro he
    rcases List.mem_cons.mp he with hEq | he2
    · exact absurd hEq h1
    · rcases List.mem_append.mp he2 with hf | hn
      · exact hf
      · exact absurd (List.mem_singleton.mp hn) h2
  · intro he
    exact List.mem_cons_of_mem _ (List.mem_append_left _ he)

theorem sec_tag_iffP (secs : List Section) (ps : List (List Dynamic))
    (hps : secs.mapM dynEntriesFor = Option.some ps) (t : DynamicType)
    (P : Section → Prop)
    (hcomp : ∀ s es, dynEntriesFor s = Option.some es →
      ((∃ e ∈ es, e.dhtype = t) ↔ P s)) :
    (∃ e ∈ ps.flatten, e.dhtype = t) ↔ (∃ s ∈ secs, P s) := by
  constructor
  · rintro ⟨e, he, hty⟩
    obtain ⟨es, hes, hein⟩ := List.mem_flatten.mp he
    obtain ⟨s, hs, hfes⟩ := mapM_mem_left dynEntriesFor secs ps hps es hes
    exact ⟨s, hs, (hcomp s es hfes).mp ⟨e, hein, hty⟩⟩
  · rintro ⟨s, hs, hp⟩
    obtain ⟨es, hes, hfes⟩ := mapM_mem_right dynEntriesFor secs ps hps s hs
    obtain ⟨e, hein, hty⟩ := (hcomp s es hfes).mpr hp
    exact ⟨e, List.mem_flatten.mpr ⟨es, hes, hein⟩, hty⟩

theorem sec_mem_iffP (secs : List Section) (ps : List (List Dynamic))
    (hps : secs.mapM dynEntriesFor = Option.some ps) (ent : Dynamic)
    (P : Section → Prop)
    (hcomp : ∀ s es, dynEntriesFor s = Option.some es → ((ent ∈ es) ↔ P s)) :
    (ent ∈ ps.flatten) ↔ (∃ s ∈ secs, P s) := by
  constructor
  · intro he
    obtain ⟨es, hes, hein⟩ := List.mem_flatten.mp he
    obtain ⟨s, hs, hfes⟩ := mapM_mem_left dynEntriesFor secs ps hps es hes
    exact ⟨s, hs, (hcomp s es hfes).mp hein⟩
  · rintro ⟨s, hs, hp⟩
    obtain ⟨es, hes, hfes⟩ := mapM_mem_right dynEntriesFor secs ps hps s hs
    exact List.mem_flatten.mpr ⟨es, hes, (hcomp s es hfes).mpr hp⟩

theorem dynEntriesFor_spec (s : Section) (es : List Dynamic)
    (h : dynEntriesFor s = Option.some es) :
    ((∃ e ∈ es, e.dhtype = DynamicType.HASH) ↔ s.name = nmHash) ∧
    ((∃ e ∈ es, e.dhtype = DynamicType.STRTAB) ↔ s.name = nmDynstr) ∧
    ((∃ e ∈ es, e.dhtype = DynamicType.STRSZ) ↔ s.name = nmDynstr) ∧
    ((∃ e ∈ es, e.dhtype = DynamicType.SYMTAB) ↔ s.name = nmDynsym) ∧
    ((∃ e ∈ es, e.dhtype = DynamicType.SYMENT) ↔ s.name = nmDynsym) ∧
    ((∃ e ∈ es, e.dhtype = DynamicType.RELA) ↔ s.name = nmRelaDyn) ∧
    ((∃ e ∈ es, e.dhtype = DynamicType.RELASZ) ↔ s.name = nmRelaDyn) ∧
    ((∃ e ∈ es, e.dhtype = DynamicType.RELAENT) ↔ s.name = nmRelaDyn) ∧
    (∀ n, ((⟨DynamicType.RELACOUNT, DynamicContent.Address n⟩ : Dynamic) ∈ es) ↔
      (s.name = nmRelaDyn ∧ ∃ rs, s.content = SectionContent.relocations rs ∧
        firstNonRela rs = n ∧ 0 < n)) ∧
    ((∃ e ∈ es, e.dhtype = DynamicType.TEXTREL) ↔
      (s.name = nmRelaDyn ∧ ∃ rs, s.content = SectionContent.relocations rs ∧
        firstNonRela rs < rs.length)) := by
  rw [dynEntriesFor] at h
  split_ifs at h with h1 h2 h3 h4
  · obtain rfl := Option.some.inj h
    refine ⟨?_, ?_, ?_, ?_, ?_, ?_, ?_, ?_, ?_, ?_⟩ <;>
      simp [h1, nmHash, nmDynstr, nmDynsym, nmRelaDyn]
  · obtain rfl := Option.some.inj h
    refine ⟨?_, ?_, ?_, ?_, ?_, ?_, ?_, ?_, ?_, ?_⟩ <;>
      simp [h2, h1, nmHash, nmDynstr, nmDynsym, nmRelaDyn]
  · obtain rfl := Option.some.inj h
    refine ⟨?_, ?_, ?_, ?_, ?_, ?_, ?_, ?_, ?_, ?_⟩ <;>
      simp [h3, h1, h2, nmHash, nmDynstr, nmDynsym, nmRelaDyn]
  · cases hv0 : s.content.asRelocations with
    | none => rw [hv0] at h; exact Option.noConfusion h
    | some v =>
      rw [hv0, Option.map_some'] at h
      obtain rfl := Option.some.inj h
      have hv : s.content = SectionContent.relocations v :=
        (asRelocations_eq_some _ _).mp hv0
      by_cases hf : 0 < firstNonRela v <;> by_cases hc : firstNonRela v < v.length <;>
        refine ⟨?_, ?_, ?_, ?_, ?_, ?_, ?_, ?_, ?_, ?_⟩ <;>
          simp [h4, h1, h2, h3, hf, hc, hv, nmHash, nmDynstr, nmDynsym, nmRelaDyn] <;>
          omega
  · obtain rfl := Option.some.inj h
    refine ⟨?_, ?_, ?_, ?_, ?_, ?_, ?_, ?_, ?_, ?_⟩ <;>
      simp [h1, h2, h3, h4]

/-- C7: the dynamic entry list begins with FLAGS_1 = PIE, ends with NULL,
contains HASH / STRTAB+STRSZ / SYMTAB+SYMENT / RELA+RELASZ+RELAENT
entries exactly for present sections named .hash / .dynstr / .dynsym /
.rela.dyn, emits RELACOUNT = n exactly for a non-zero-length leading
RELATIVE/JUMP_SLOT run n of a .rela.dyn table, and emits TEXTREL exactly
when that run does not cover the whole table. -/
theorem claim_C7_dynamic (secs : List Section) (d : List Dynamic)
    (h : dynamicList secs = Option.some d) : dynamicSpec secs d := by
  obtain ⟨ps, hps, rfl⟩ := dynamicList_eq secs d h
  refine ⟨rfl, ?_, ?_, ?_, ?_, ?_, ?_, ?_, ?_, ?_, ?_, ?_⟩
  · rw [show pieEntry :: (ps.flatten ++ [nullEntry])
        = (pieEntry :: ps.flatten) ++ [nullEntry] from rfl]
    exact List.getLast?_concat _
  · exact (exists_dhtype_cons_append ps.flatten _ (by simp) (by simp)).trans
      (sec_tag_iffP secs ps hps _ _ (fun s es hes => (dynEntriesFor_spec s es hes).1))
  · exact (exists_dhtype_cons_append ps.flatten _ (by simp) (by simp)).trans
      (sec_tag_iffP secs ps hps _ _ (fun s es hes => (dynEntriesFor_spec s es hes).2.1))
  · exact (exists_dhtype_cons_append ps.flatten _ (by simp) (by simp)).trans
      (sec_tag_iffP secs ps hps _ _ (fun s es hes => (dynEntriesFor_spec s es hes).2.2.1))
  · exact (exists_dhtype_cons_append ps.flatten _ (by simp) (by simp)).trans
      (sec_tag_iffP secs ps hps _ _ (fun s es hes => (dynEntriesFor_spec s es hes).2.2.2.1))
  · exact (exists_dhtype_cons_append ps.flatten _ (by simp) (by simp)).trans
      (sec_tag_iffP secs ps hps _ _ (fun s es hes => (dynEntriesFor_spec s es hes).2.2.2.2.1))
  · exact (exists_dhtype_cons_append ps.flatten _ (by simp) (by simp)).trans
      (sec_tag_iffP secs ps hps _ _
        (fun s es hes => (dynEntriesFor_spec s es hes).2.2.2.2.2.1))
  · exact (exists_dhtype_cons_append ps.flatten _ (by simp) (by simp)).trans
      (sec_tag_iffP secs ps hps _ _
        (fun s es hes => (dynEntriesFor_spec s es hes).2.2.2.2.2.2.1))
  · exact (exists_dhtype_cons_append ps.flatten _ (by simp) (by simp)).trans
      (sec_tag_iffP secs ps hps _ _
        (fun s es hes => (dynEntriesFor_spec s es hes).2.2.2.2.2.2.2.1))
  · intro n
    exact (mem_cons_append_iff ps.flatten _ (by simp [pieEntry]) (by simp [nullEntry])).trans
      (sec_mem_iffP secs ps hps _ _
        (fun s es hes => (dynEntriesFor_spec s es hes).2.2.2.2.2.2.2.2.1 n))
  · exact (exists_dhtype_cons_append ps.flatten _ (by simp) (by simp)).trans
      (sec_tag_iffP secs ps hps _ _
        (fun s es hes => (dynEntriesFor_spec s es hes).2.2.2.2.2.2.2.2.2))

/-- C7 witness: the concrete two-section list with a .hash section and a
.rela.dyn section whose table is RELATIVE then R_X86_64_64. -/
theorem claim_C7_witness : dynamicSpec cw7secs cw7d :=
  claim_C7_dynamic cw7secs cw7d (by rfl)

/-! Claim C8: termination of load_if. -/

theorem anyContains_objectSt (hashFn : List Nat → Nat × Nat) (name : List Nat) (e2 : Elf) :
    ∀ needles, anyContains (LState.objectSt name e2) hashFn needles = Option.some false := by
  intro needles
  induction needles with
  | nil => rfl
  | cons nd rest ih => exact ih

theorem seqJoin_ne_fuelOut :
    ∀ rs : List RunRes, (∀ r ∈ rs, r ≠ RunRes.fuelOut) → seqJoin rs ≠ RunRes.fuelOut := by
  intro rs
  induction rs with
  | nil => intro _ h; exact RunRes.noConfusion h
  | cons r rest ih =>
    intro hall
    cases r with
    | out l =>
      rw [seqJoin]
      cases hsj : seqJoin rest with
      | out l2 => intro h; exact RunRes.noConfusion h
      | panicked => intro h; exact RunRes.noConfusion h
      | fuelOut =>
        exact absurd hsj (ih (fun r hr => hall r (List.mem_cons_of_mem _ hr)))
    | panicked => intro h; exact RunRes.noConfusion h
    | fuelOut => exact absurd rfl (hall RunRes.fuelOut (List.mem_cons_self _ _))

theorem loadIfF_object (fs : List Nat → Except LoadError FileKind) (nb : Nat → Nat)
    (hashFn : List Nat → Nat × Nat) (onErr : LoadError → List Nat → List LState)
    (needles : List (List Nat)) (n : Nat) (name : List Nat) (e2 : Elf) :
    loadIfF fs nb hashFn onErr needles (n + 1) (LState.objectSt name e2)
      = RunRes.out [LState.objectSt name e2] := by
  rw [loadIfF, anyContains_objectSt]

theorem loadIfF_error_empty (fs : List Nat → Except LoadError FileKind) (nb : Nat → Nat)
    (hashFn : List Nat → Nat × Nat) (needles : List (List Nat)) (n : Nat)
    (name : List Nat) (err : LoadError) :
    loadIfF fs nb hashFn emptyHandler needles (n + 1) (LState.errorSt name err)
      ≠ RunRes.fuelOut := by
  cases needles with
  | nil =>
    rw [loadIfF]
    intro h
    exact RunRes.noConfusion h
  | cons nd rest =>
    rw [loadIfF]
    intro h
    exact RunRes.noConfusion h

theorem loadIfF_elf (fs : List Nat → Except LoadError FileKind) (nb : Nat → Nat)
    (hashFn : List Nat → Nat × Nat) (onErr : LoadError → List Nat → List LState)
    (needles : List (List Nat)) (n : Nat) (name : List Nat) (el : Elf) (bloom : BloomFilter) :
    loadIfF fs nb hashFn onErr needles (n + 2) (LState.elfSt name el bloom)
      ≠ RunRes.fuelOut := by
  rw [loadIfF]
  cases hac : anyContains (LState.elfSt name el bloom) hashFn needles with
  | none => intro h; exact RunRes.noConfusion h
  | some b =>
    cases b with
    | false => intro h; exact RunRes.noConfusion h
    | true =>
      show seqJoin ([LState.objectSt name el].map
        (loadIfF fs nb hashFn onErr needles (n + 1))) ≠ RunRes.fuelOut
      rw [List.map_cons, List.map_nil, loadIfF_object]
      intro h
      exact RunRes.noConfusion h

theorem makeObject_ok_shape (nb : Nat → Nat) (hashFn : List Nat → Nat × Nat)
    (name : List Nat) (el : Elf) (st : LState)
    (h : makeObject nb hashFn name el = Option.some (Except.ok st)) :
    ∃ bloom, st = LState.elfSt name el bloom := by
  rw [makeObject] at h
  cases hm : (el.sections.filter (fun s =>
      s.header.shtype == SectionType.SYMTAB
        || s.header.shtype == SectionType.DYNSYM)).mapM
      (fun s => s.content.asSymbols) with
  | none =>
    rw [hm] at h
    simp only [Option.none_bind] at h
    exact Option.noConfusion h
  | some symLists =>
    rw [hm] at h
    simp only [Option.some_bind] at h
    by_cases hz : (symLists.map List.length).sum = 0
    · rw [if_pos hz] at h
      have h2 := Option.some.inj h
      exact absurd h2 (by intro h3; exact Except.noConfusion h3)
    · rw [if_neg hz] at h
      cases hfold : (symLists.flatten.filter symAdmissible).foldlM
          (fun (b : BloomFilter) sym => b.insertHash (hashFn sym.name))
          (⟨List.replicate (nb ((symLists.map List.length).sum)) false⟩ : BloomFilter) with
      | none => rw [hfold] at h; exact Option.noConfusion h
      | some bloom =>
        rw [hfold, Option.map_some'] at h
        have h2 := Option.some.inj h
        have h3 := Except.ok.inj h2
        exact ⟨bloom, h3.symm⟩

theorem loadIfF_archive (fs : List Nat → Except LoadError FileKind) (nb : Nat → Nat)
    (hashFn : List Nat → Nat × Nat) (needles : List (List Nat)) (n : Nat)
    (name : List Nat) (a : ArchiveData) :
    loadIfF fs nb hashFn emptyHandler needles (n + 3) (LState.archiveSt name a)
      ≠ RunRes.fuelOut := by
  rw [loadIfF]
  cases hac : anyContains (LState.archiveSt name a) hashFn needles with
  | none => intro h; exact RunRes.noConfusion h
  | some b =>
    cases b with
    | false => intro h; exact RunRes.noConfusion h
    | true =>
      cases hload : loadState fs nb hashFn emptyHandler (LState.archiveSt name a) with
      | none => intro h; exact RunRes.noConfusion h
      | some succs =>
        apply seqJoin_ne_fuelOut
        intro r hr
        obtain ⟨st, hst, rfl⟩ := List.mem_map.mp hr
        have hshape : (∃ nm er, st = LState.errorSt nm er) ∨
            (∃ nm el bl, st = LState.elfSt nm el bl) := by
          rw [loadState] at hload
          obtain ⟨m, hm, hfm⟩ := mapM_mem_left _ a.members succs hload st hst
          cases hme : m.2 with
          | error er =>
            rw [hme] at hfm
            exact Or.inl ⟨name ++ m.1, er, (Option.some.inj hfm).symm⟩
          | ok el =>
            rw [hme] at hfm
            have hfm2 : (match makeObject nb hashFn (name ++ m.1) el with
                | Option.none => Option.none
                | Option.some (Except.error err) =>
                  Option.some (LState.errorSt (name ++ m.1) err)
                | Option.some (Except.ok st2) => Option.some st2) = Option.some st := hfm
            cases hmo : makeObject nb hashFn (name ++ m.1) el with
            | none => rw [hmo] at hfm2; exact Option.noConfusion hfm2
            | some res =>
              rw [hmo] at hfm2
              cases res with
              | error er =>
                exact Or.inl ⟨name ++ m.1, er, (Option.some.inj hfm2).symm⟩
              | ok st2 =>
                have hst2 : st2 = st := Option.some.inj hfm2
                obtain ⟨bl, hbl⟩ := makeObject_ok_shape nb hashFn (name ++ m.1) el st2 hmo
                exact Or.inr ⟨name ++ m.1, el, bl, by rw [← hst2, hbl]⟩
        rcases hshape with ⟨nm, er, rfl⟩ | ⟨nm, el, bl, rfl⟩
        · exact loadIfF_error_empty fs nb hashFn needles (n + 1) nm er
        · exact loadIfF_elf fs nb hashFn emptyHandler needles n nm el bl

theorem loadIfF_path (fs : List Nat → Except LoadError FileKind) (nb : Nat → Nat)
    (hashFn : List Nat → Nat × Nat) (needles : List (List Nat)) (n : Nat)
    (name : List Nat) :
    loadIfF fs nb hashFn emptyHandler needles (n + 4) (LState.pathSt name)
      ≠ RunRes.fuelOut := by
  rw [loadIfF]
  cases hac : anyContains (LState.pathSt name) hashFn needles with
  | none => intro h; exact RunRes.noConfusion h
  | some b =>
    cases b with
    | false => intro h; exact RunRes.noConfusion h
    | true =>
      have hsingle : ∀ st : LState,
          (loadIfF fs nb hashFn emptyHandler needles (n + 3) st ≠ RunRes.fuelOut) →
          seqJoin ([st].map (loadIfF fs nb hashFn emptyHandler needles (n + 3)))
            ≠ RunRes.fuelOut := by
        intro st hst
        apply seqJoin_ne_fuelOut
        intro r hr
        rw [List.map_cons, List.map_nil] at hr
        rw [List.mem_singleton.mp hr]
        exact hst
      cases hfs : fs name with
      | error err =>
        have hload : loadState fs nb hashFn emptyHandler (LState.pathSt name)
            = Option.some [LState.errorSt name err] := by
          rw [loadState, hfs]
        rw [hload]
        exact hsingle _ (loadIfF_error_empty fs nb hashFn needles (n + 2) name err)
      | ok fk =>
        cases fk with
        | unknownFile =>
          have hload : loadState fs nb hashFn emptyHandler (LState.pathSt name)
              = Option.some [LState.errorSt name LoadError.InvalidMagic] := by
            rw [loadState, hfs]
          rw [hload]
          exact hsingle _ (loadIfF_error_empty fs nb hashFn needles (n + 2) name _)
        | elfFile el =>
          have h1 : loadState fs nb hashFn emptyHandler (LState.pathSt name)
              = (match makeObject nb hashFn name el with
                 | Option.none => Option.none
                 | Option.some (Except.error err) => Option.some [LState.errorSt name err]
                 | Option.some (Except.ok st) => Option.some [st]) := by
            rw [loadState, hfs]
          cases hmo : makeObject nb hashFn name el with
          | none =>
            rw [hmo] at h1
            rw [h1]
            intro h
            exact RunRes.noConfusion h
          | some res =>
            rw [hmo] at h1
            cases res with
            | error err =>
              rw [h1]
              exact hsingle _ (loadIfF_error_empty fs nb hashFn needles (n + 2) name err)
            | ok st =>
              obtain ⟨bl, rfl⟩ := makeObject_ok_shape nb hashFn name el st hmo
              rw [h1]
              exact hsingle _ (loadIfF_elf fs nb hashFn emptyHandler needles (n + 1) name el bl)
        | archiveFile a =>
          have hload : loadState fs nb hashFn emptyHandler (LState.pathSt name)
              = Option.some [LState.archiveSt name a] := by
            rw [loadState, hfs]
          rw [hload]
          exact hsingle _ (loadIfF_archive fs nb hashFn needles n name a)

/-- C8 (amended): with the error handler that contributes no successor
states (the handler bin/findsym.rs passes), load_if terminates on every
loader state, needle set, filesystem environment, Bloom sizing function
and hash function: the recursion reaches a result within a fixed depth. -/
theorem claim_C8_load_if_terminates (fs : List Nat → Except LoadError FileKind)
    (nb : Nat → Nat) (hashFn : List Nat → Nat × Nat) (needles : List (List Nat))
    (s : LState) :
    ∃ n, loadIfF fs nb hashFn emptyHandler needles n s ≠ RunRes.fuelOut := by
  refine ⟨5, ?_⟩
  cases s with
  | errorSt name err => exact loadIfF_error_empty fs nb hashFn needles 4 name err
  | pathSt name => exact loadIfF_path fs nb hashFn needles 1 name
  | archiveSt name a => exact loadIfF_archive fs nb hashFn needles 2 name a
  | elfSt name el bl => exact loadIfF_elf fs nb hashFn emptyHandler needles 3 name el bl
  | objectSt name e2 =>
    rw [loadIfF_object fs nb hashFn emptyHandler needles 4 name e2]
    intro h
    exact RunRes.noConfusion h

theorem loadIfF_regen_diverges :
    ∀ n, loadIfF cx8fs cx8nb cx8hash regenHandler [[1]] n cx8st = RunRes.fuelOut := by
  intro n
  induction n with
  | zero => rfl
  | succ n ih =>
    have hstep : loadIfF cx8fs cx8nb cx8hash regenHandler [[1]] (n + 1) cx8st
        = seqJoin [loadIfF cx8fs cx8nb cx8hash regenHandler [[1]] n cx8st] := rfl
    rw [hstep, ih]
    rfl

/-- C8 counterexample: the claim quantifies over every error handler, but
with a handler that regenerates each Error state the recursion never
terminates: starting from an Error state with a nonempty needle set,
contains answers true, load hands the state to the handler, and the same
state comes back forever, so no recursion depth suffices. -/
theorem claim_C8_counterexample :
    ¬ (∃ n, loadIfF cx8fs cx8nb cx8hash regenHandler [[1]] n cx8st ≠ RunRes.fuelOut) := by
  rintro ⟨n, hn⟩
  exact hn (loadIfF_regen_diverges n)

/-- C8 witness: the terminating run from a concrete Path state. -/
theorem claim_C8_witness :
    ∃ n, loadIfF cx8fs cx8nb cx8hash emptyHandler [[1]] n (LState.pathSt [9])
      ≠ RunRes.fuelOut :=
  claim_C8_load_if_terminates cx8fs cx8nb cx8hash [[1]] (LState.pathSt [9])

/-! Claim C3: the move_section round trip. -/

theorem moveSection_clean (src dst0 dst : Nat) (secs : List Section)
    (hne : dst0 ≠ src)
    (hd : dst = if src < dst0 then dst0 - 1 else dst0)
    (hsrc : src < secs.length)
    (hdst : dst ≤ secs.length - 1) :
    moveSection src dst0 secs = Option.some
      (((secs.eraseIdx src).map
          (fun s => restoreSentinel dst (adjOnInsert dst
            (adjOnRemove src (markSentinel src s))))).insertIdx
        dst (restoreSentinel dst (adjOnInsert dst
          (markSentinel src (secs.get ⟨src, hsrc⟩))))) := by
  rw [moveSection, if_neg hne, ← hd]
  have hg : (secs.map (markSentinel src)).get? src
      = Option.some (markSentinel src (secs.get ⟨src, hsrc⟩)) := by
    rw [List.get?_eq_getElem?, List.getElem?_map, List.getElem?_eq_getElem hsrc]
    rfl
  have hrem : removeSection src (secs.map (markSentinel src))
      = Option.some (markSentinel src (secs.get ⟨src, hsrc⟩),
          ((secs.map (markSentinel src)).eraseIdx src).map (adjOnRemove src)) := by
    rw [removeSection, hg]
  have hlen1 : ((secs.map (markSentinel src)).eraseIdx src).length = secs.length - 1 := by
    rw [List.length_eraseIdx]
    simp [hsrc]
  have hguard : dst ≤ (((secs.map (markSentinel src)).eraseIdx src).map
      (adjOnRemove src)).length := by
    rw [List.length_map, hlen1]
    exact hdst
  rw [hrem, Option.some_bind]
  have hins : insertSection dst (markSentinel src (secs.get ⟨src, hsrc⟩))
      (((secs.map (markSentinel src)).eraseIdx src).map (adjOnRemove src))
      = Option.some (((((secs.map (markSentinel src)).eraseIdx src).map
          (adjOnRemove src)).insertIdx dst
          (markSentinel src (secs.get ⟨src, hsrc⟩))).map (adjOnInsert dst)) := by
    rw [insertSection, if_pos hguard]
  rw [hins, Option.map_some']
  have e1 : ((secs.map (markSentinel src)).eraseIdx src).map (adjOnRemove src)
      = (secs.eraseIdx src).map (fun s => adjOnRemove src (markSentinel src s)) := by
    rw [← map_eraseIdx, List.map_map]
    rfl
  rw [e1, map_insertIdx, map_insertIdx, List.map_map, List.map_map]
  rfl

theorem markSentinel_lit {src nm ad off sz lk inf aa es : Nat} {ty : SectionType} {fl : SectionFlags}
    {snm ct} (hf : fl.info_link = false) :
    markSentinel src ⟨⟨nm, ty, fl, ad, off, sz, lk, inf, aa, es⟩, snm, ct⟩
      = ⟨⟨nm, ty, fl, ad, off, sz, if lk = src then 999999 else lk, inf, aa, es⟩,
          snm, ct⟩ := by
  simp [markSentinel, hf]

theorem adjOnRemove_lit {at_ nm ad off sz lk inf aa es : Nat} {ty : SectionType} {fl : SectionFlags}
    {snm ct} (hf : fl.info_link = false) :
    adjOnRemove at_ ⟨⟨nm, ty, fl, ad, off, sz, lk, inf, aa, es⟩, snm, ct⟩
      = ⟨⟨nm, ty, fl, ad, off, sz,
          (if lk = at_ then 0 else if at_ < lk then lk - 1 else lk), inf, aa, es⟩,
          snm, ct⟩ := by
  simp [adjOnRemove, hf]

theorem adjOnInsert_lit {at_ nm ad off sz lk inf aa es : Nat} {ty : SectionType} {fl : SectionFlags}
    {snm ct} (hf : fl.info_link = false) :
    adjOnInsert at_ ⟨⟨nm, ty, fl, ad, off, sz, lk, inf, aa, es⟩, snm, ct⟩
      = ⟨⟨nm, ty, fl, ad, off, sz, (if at_ ≤ lk then lk + 1 else lk), inf, aa, es⟩,
          snm, ct⟩ := by
  simp [adjOnInsert, hf]

theorem restoreSentinel_lit {dst nm ad off sz lk inf aa es : Nat} {ty : SectionType} {fl : SectionFlags}
    {snm ct} (hf : fl.info_link = false) :
    restoreSentinel dst ⟨⟨nm, ty, fl, ad, off, sz, lk, inf, aa, es⟩, snm, ct⟩
      = ⟨⟨nm, ty, fl, ad, off, sz, (if lk = 999999 then dst else lk), inf, aa, es⟩,
          snm, ct⟩ := by
  simp [restoreSentinel, hf]

theorem perElemA (i n : Nat) (s : Section) (hflag : s.header.flags.info_link = false)
    (hlink : s.header.link < n) (hn : n < 999998) (hin : i < n) :
    restoreSentinel i (adjOnInsert i (adjOnRemove i (markSentinel i s))) = s := by
  rcases s with ⟨⟨nm, ty, fl, ad, off, sz, lk, inf, aa, es⟩, snm, ct⟩
  have hf : fl.info_link = false := hflag
  have hl : lk < n := hlink
  rw [markSentinel_lit hf, adjOnRemove_lit hf, adjOnInsert_lit hf, restoreSentinel_lit hf]
  simp only [Section.mk.injEq, SectionHeader.mk.injEq, and_true, true_and]
  split_ifs <;> omega

theorem movedElemA (i n : Nat) (s : Section) (hflag : s.header.flags.info_link = false)
    (hlink : s.header.link < i) (hn : n < 999998) (hin : i < n) :
    restoreSentinel i (adjOnInsert i (markSentinel i s)) = s := by
  rcases s with ⟨⟨nm, ty, fl, ad, off, sz, lk, inf, aa, es⟩, snm, ct⟩
  have hf : fl.info_link = false := hflag
  have hl : lk < i := hlink
  rw [markSentinel_lit hf, adjOnInsert_lit hf, restoreSentinel_lit hf]
  simp only [Section.mk.injEq, SectionHeader.mk.injEq, and_true, true_and]
  split_ifs <;> omega

theorem linkOne (s d l : Nat) (hs : s < 999998) (hd : d < 999998) (hl : l < 999998) :
    (if (if d ≤ (if (if l = s then 999999 else l) = s then 0
            else if s < (if l = s then 999999 else l)
              then (if l = s then 999999 else l) - 1
              else (if l = s then 999999 else l))
          then (if (if l = s then 999999 else l) = s then 0
            else if s < (if l = s then 999999 else l)
              then (if l = s then 999999 else l) - 1
              else (if l = s then 999999 else l)) + 1
          else (if (if l = s then 999999 else l) = s then 0
            else if s < (if l = s then 999999 else l)
              then (if l = s then 999999 else l) - 1
              else (if l = s then 999999 else l))) = 999999
      then d
      else (if d ≤ (if (if l = s then 999999 else l) = s then 0
            else if s < (if l = s then 999999 else l)
              then (if l = s then 999999 else l) - 1
              else (if l = s then 999999 else l))
          then (if (if l = s then 999999 else l) = s then 0
            else if s < (if l = s then 999999 else l)
              then (if l = s then 999999 else l) - 1
              else (if l = s then 999999 else l)) + 1
          else (if (if l = s then 999999 else l) = s then 0
            else if s < (if l = s then 999999 else l)
              then (if l = s then 999999 else l) - 1
              else (if l = s then 999999 else l))))
    = if l = s then d
      else if d ≤ (if s < l then l - 1 else l)
        then (if s < l then l - 1 else l) + 1 else (if s < l then l - 1 else l) := by
  split_ifs <;> omega

theorem perElemB (i j n : Nat) (s : Section) (hflag : s.header.flags.info_link = false)
    (hlink : s.header.link < n) (hn : n < 999998) (hij : i + 1 < j) (hjn : j < n) :
    restoreSentinel i (adjOnInsert i (adjOnRemove (j - 1) (markSentinel (j - 1)
      (restoreSentinel (j - 1) (adjOnInsert (j - 1)
        (adjOnRemove i (markSentinel i s))))))) = s := by
  rcases s with ⟨⟨nm, ty, fl, ad, off, sz, lk, inf, aa, es⟩, snm, ct⟩
  have hf : fl.info_link = false := hflag
  have hl : lk < n := hlink
  rw [markSentinel_lit hf, adjOnRemove_lit hf, adjOnInsert_lit hf, restoreSentinel_lit hf,
    markSentinel_lit hf, adjOnRemove_lit hf, adjOnInsert_lit hf, restoreSentinel_lit hf]
  simp only [Section.mk.injEq, SectionHeader.mk.injEq, and_true, true_and]
  rw [linkOne i (j - 1) lk (by omega) (by omega) (by omega)]
  rw [linkOne (j - 1) i
    (if lk = i then j - 1
     else if j - 1 ≤ (if i < lk then lk - 1 else lk)
       then (if i < lk then lk - 1 else lk) + 1 else (if i < lk then lk - 1 else lk))
    (by omega) (by omega) (by split_ifs <;> omega)]
  split_ifs <;> omega

theorem movedElemB (i j n : Nat) (s : Section) (hflag : s.header.flags.info_link = false)
    (hlink : s.header.link < i) (hij : i + 1 < j) (hjn : j < n) (hn : n < 999998) :
    restoreSentinel i (adjOnInsert i (markSentinel (j - 1)
      (restoreSentinel (j - 1) (adjOnInsert (j - 1) (markSentinel i s))))) = s := by
  rcases s with ⟨⟨nm, ty, fl, ad, off, sz, lk, inf, aa, es⟩, snm, ct⟩
  have hf : fl.info_link = false := hflag
  have hl : lk < i := hlink
  rw [markSentinel_lit hf, adjOnInsert_lit hf, restoreSentinel_lit hf,
    markSentinel_lit hf, adjOnInsert_lit hf, restoreSentinel_lit hf]
  simp only [Section.mk.injEq, SectionHeader.mk.injEq, and_true, true_and]
  split_ifs <;> omega

/-- C3 (amended): move_section(i, j) followed by move_section(j-1, i) with
i < j restores the container exactly, provided no section carries the
INFO_LINK flag, every header.link is below the section count, the
container has fewer than 999998 sections (so no link collides with the
999999 sentinel), and the moved section's own link points strictly below
i.  Without the last proviso the moved section's self-referential link is
corrupted, and INFO_LINK infos at i+1 and j are corrupted, see the
counterexample. -/
theorem claim_C3_move_roundtrip (secs : List Section) (i j : Nat)
    (hij : i < j) (hj : j < secs.length) (hsmall : secs.length < 999998)
    (hflags : ∀ s ∈ secs, s.header.flags.info_link = false)
    (hlinks : ∀ s ∈ secs, s.header.link < secs.length)
    (hmoved : (secs.get ⟨i, Nat.lt_trans hij hj⟩).header.link < i) :
    (moveSection i j secs).bind (moveSection (j - 1) i) = Option.some secs := by
  have hi : i < secs.length := Nat.lt_trans hij hj
  have hm1 := moveSection_clean i j (j - 1) secs (by omega) (by rw [if_pos hij]) hi
    (by omega)
  rw [hm1, Option.some_bind]
  have hflagI : (secs.get ⟨i, hi⟩).header.flags.info_link = false :=
    hflags _ (List.get_mem secs i hi)
  have hEsub : ∀ s ∈ secs.eraseIdx i, s ∈ secs :=
    fun s hs => (List.eraseIdx_sublist secs i).subset hs
  have hlenE : (secs.eraseIdx i).length = secs.length - 1 := by
    rw [List.length_eraseIdx]
    simp [hi]
  by_cases hcase : j = i + 1
  · subst hcase
    have hji : i + 1 - 1 = i := by omega
    rw [hji, moveSection, if_pos rfl]
    have hmap : (secs.eraseIdx i).map
        (fun s => restoreSentinel i (adjOnInsert i (adjOnRemove i (markSentinel i s))))
        = (secs.eraseIdx i).map id :=
      List.map_congr_left (fun s hs =>
        perElemA i secs.length s (hflags s (hEsub s hs)) (hlinks s (hEsub s hs))
          hsmall hi)
    rw [hmap, List.map_id,
      movedElemA i secs.length (secs.get ⟨i, hi⟩) hflagI hmoved hsmall hi,
      insertIdx_get_eraseIdx secs i hi]
  · have hij2 : i + 1 < j := by omega
    set E : List Section := (secs.eraseIdx i).map
      (fun s => restoreSentinel (j - 1) (adjOnInsert (j - 1)
        (adjOnRemove i (markSentinel i s)))) with hEdef
    set M : Section := restoreSentinel (j - 1) (adjOnInsert (j - 1)
      (markSentinel i (secs.get ⟨i, hi⟩))) with hMdef
    have hlenE2 : E.length = secs.length - 1 := by
      rw [hEdef, List.length_map, hlenE]
    have hm2 := moveSection_clean (j - 1) i i (E.insertIdx (j - 1) M)
      (by omega) (by rw [if_neg (by omega)])
      (by
        rw [List.length_insertIdx _ _ (by rw [hlenE2]; omega), hlenE2]
        omega)
      (by
        rw [List.length_insertIdx _ _ (by rw [hlenE2]; omega), hlenE2]
        omega)
    rw [hm2]
    have hget := List.getElem_insertIdx_self E M (j - 1) (by rw [hlenE2]; omega)
    simp only [List.get_eq_getElem, List.eraseIdx_insertIdx, hget]
    rw [hEdef, List.map_map]
    have hmap2 : ((secs.eraseIdx i).map
        ((fun s => restoreSentinel i (adjOnInsert i
            (adjOnRemove (j - 1) (markSentinel (j - 1) s)))) ∘
          (fun s => restoreSentinel (j - 1) (adjOnInsert (j - 1)
            (adjOnRemove i (markSentinel i s))))))
        = (secs.eraseIdx i).map id :=
      List.map_congr_left (fun s hs =>
        perElemB i j secs.length s (hflags s (hEsub s hs)) (hlinks s (hEsub s hs))
          hsmall hij2 hj)
    rw [hmap2]
    rw [List.map_id]
    rw [hMdef]
    rw [movedElemB i j secs.length (secs.get ⟨i, hi⟩) hflagI hmoved hij2 hj hsmall]
    rw [insertIdx_get_eraseIdx secs i hi]

/-- C3 counterexample: on a three-section container whose section 1 links
to itself and whose section 2 has an INFO_LINK info of 2, the round trip
move_section(1, 2); move_section(1, 1) does not restore the container:
the self-link becomes 1000000 (the sentinel is hit by the insert
increment and never restored) and the INFO_LINK info 2 becomes 1. -/
theorem claim_C3_counterexample :
    ((moveSection 1 2 cx3secs).bind (moveSection 1 1)) ≠ Option.some cx3secs ∧
    ((moveSection 1 2 cx3secs).bind (moveSection 1 1)).map
      (List.map (fun s => (s.header.link, s.header.info)))
      = Option.some [(0, 0), (1000000, 0), (0, 1)] := by
  constructor
  · decide
  · decide

/-- C3 witness: on a four-section container with no INFO_LINK flags and
all links in range, where section 1 links below itself, the round trip
move_section(1, 3); move_section(2, 1) restores the container exactly. -/
theorem claim_C3_witness :
    (moveSection 1 3 cw3secs).bind (moveSection 2 1) = Option.some cw3secs :=
  claim_C3_move_roundtrip cw3secs 1 3 (by decide) (by decide) (by decide)
    (by decide) (by decide) (by decide)


end Elfkit
